import Mathlib

/-!
The authentication support layer of mobile-api

A shallow embedding of the packages `auth` (session management, password reset,
login errors, MFA, password strength) and `security` (rate limiting,
encryption) under `src/`.

* Go maps `map[string]V` are total functions `String → Option V`
  (`none` is an absent key).
* The clock read by `time.Now()` is an explicit argument `now`.
* A Go result pair `(string, error)` is `String × Option String`; the error
  `nil` is `none`, and `errors.New msg` is `some msg`.
* The mutex of each manager serialises the calls; every operation below is one
  such serialised call, taking the state before and giving the state after.
-/

namespace MobileApi

/-- An instant `time.Time`, counted in nanoseconds. -/
abbrev Time := Int

/-- A span `time.Duration`, counted in nanoseconds. -/
abbrev Duration := Int

/-- Go `map[string]V`. -/
abbrev GoMap (V : Type) := String → Option V

namespace GoMap

/-- The empty map `make(map[string]V)`. -/
def empty {V : Type} : GoMap V := fun _ => none

/-- Assignment `m[k] = v`. -/
def set {V : Type} (m : GoMap V) (k : String) (v : V) : GoMap V :=
  fun j => if j = k then some v else m j

/-- Removal `delete(m, k)`. -/
def delete {V : Type} (m : GoMap V) (k : String) : GoMap V :=
  fun j => if j = k then none else m j

end GoMap

namespace Auth

/-- The struct `Session` of session_management.go. -/
structure Session where
  UserID : String
  ExpiresAt : Time
deriving DecidableEq

/-- The struct `SessionManager`; the mutex is the serialisation of the calls. -/
structure SessionManager where
  sessions : GoMap Session

/-- Go `NewSessionManager`. -/
def NewSessionManager : SessionManager :=
  { sessions := GoMap.empty }

/-- Go `generateSessionID`: the placeholder body returns a fixed literal. -/
def generateSessionID : String := "randomSessionID"

/-- The message of the error built in `ValidateSession`. -/
def errInvalidOrExpired : String := "invalid or expired session"

/-- Go `Time.Before`. -/
def Before (t u : Time) : Bool := decide (t < u)

/-- Go `CreateSession`, called when the clock reads `now`: the returned pair and
the manager after the call. -/
def CreateSession (sm : SessionManager) (userID : String) (duration : Duration)
    (now : Time) : (String × Option String) × SessionManager :=
  let sessionID := generateSessionID
  ((sessionID, none),
   { sessions := sm.sessions.set sessionID
       { UserID := userID, ExpiresAt := now + duration } })

/-- Go `ValidateSession`, called when the clock reads `now`: the returned pair
and the manager after the call (the body writes nothing to the table). -/
def ValidateSession (sm : SessionManager) (sessionID : String) (now : Time) :
    (String × Option String) × SessionManager :=
  match sm.sessions sessionID with
  | none => (("", some errInvalidOrExpired), sm)
  | some session =>
    if Before session.ExpiresAt now then (("", some errInvalidOrExpired), sm)
    else ((session.UserID, none), sm)

/-- Go `EndSession`. -/
def EndSession (sm : SessionManager) (sessionID : String) : SessionManager :=
  { sessions := sm.sessions.delete sessionID }

/-- One call on a session manager, with the clock reading it is made at. -/
inductive Call where
  | create (userID : String) (duration : Duration) (now : Time)
  | validate (sessionID : String) (now : Time)
  | endSession (sessionID : String)

/-- The manager after one call. -/
def Call.apply (sm : SessionManager) : Call → SessionManager
  | .create userID duration now => (CreateSession sm userID duration now).2
  | .validate sessionID now => (ValidateSession sm sessionID now).2
  | .endSession sessionID => EndSession sm sessionID

/-- The manager after a sequence of calls, oldest first. -/
def runCalls (sm : SessionManager) (calls : List Call) : SessionManager :=
  calls.foldl Call.apply sm

end Auth

namespace Security

/-- An instant or a span of the limiter clock, in seconds. The refill
arithmetic is exact: `float64` token counts and rates are rationals. -/
abbrev Seconds := ℚ

/-- Modelled from the spec: the per-key state held by a `*rate.Limiter` of
package golang.org/x/time/rate, which rate_limiting.go imports and whose source
is not under src/. The fields are those of `RateLimiterState` in the data
model. -/
structure Limiter where
  tokensAvailable : ℚ
  lastRefill : Seconds
  capacity : Int
  refillRate : ℚ
deriving DecidableEq

/-- Modelled from the spec: `rate.NewLimiter(r, b)`, missing from src/ with its
package; the bucket has capacity `b`, refill rate `r` tokens per second and is
full at creation. -/
def NewLimiter (r : ℚ) (b : Int) (now : Seconds) : Limiter :=
  { tokensAvailable := b, lastRefill := now, capacity := b, refillRate := r }

/-- Modelled from the spec: the refill step of `rate.Limiter`, missing from src/
with its package: the elapsed time since `lastRefill` is computed and the
balance becomes `min(capacity, tokensAvailable + elapsed*r)`. -/
def Limiter.refill (lim : Limiter) (now : Seconds) : ℚ :=
  min (lim.capacity : ℚ) (lim.tokensAvailable + (now - lim.lastRefill) * lim.refillRate)

/-- Modelled from the spec: `rate.Limiter.Allow`, missing from src/ with its
package: after the refill, one token is taken and the call returns true if at
least one was available, else it returns false without taking any. -/
def Limiter.Allow (lim : Limiter) (now : Seconds) : Bool × Limiter :=
  let tokens := lim.refill now
  if 1 ≤ tokens then
    (true, { lim with tokensAvailable := tokens - 1, lastRefill := now })
  else
    (false, { lim with tokensAvailable := tokens, lastRefill := now })

/-- The call `limiter.Reserve().Delay()` of golang.org/x/time/rate as that
package documents it (the spec has no word on it): with a burst of at least one
the reservation is granted whatever the balance, one token is booked at once,
and the delay is the time until the balance is back at zero; `none` is
`InfDuration` (reservation not granted, or nothing ever refills). -/
def Limiter.Reserve (lim : Limiter) (now : Seconds) : Option Seconds × Limiter :=
  if lim.capacity < 1 then (none, lim)
  else
    let tokens := lim.refill now - 1
    let delay : Option Seconds :=
      if tokens < 0 then
        (if lim.refillRate ≤ 0 then none else some (-tokens / lim.refillRate))
      else some 0
    (delay, { lim with tokensAvailable := tokens, lastRefill := now })

/-- The struct `RateLimiter`; the mutex is the serialisation of the calls. -/
structure RateLimiter where
  limiters : GoMap Limiter
  r : ℚ
  b : Int

/-- Go `NewRateLimiter`. -/
def NewRateLimiter (r : ℚ) (b : Int) : RateLimiter :=
  { limiters := GoMap.empty, r := r, b := b }

/-- Go `getLimiter`, called when the clock reads `now`. -/
def getLimiter (rl : RateLimiter) (key : String) (now : Seconds) :
    Limiter × RateLimiter :=
  match rl.limiters key with
  | some limiter => (limiter, rl)
  | none =>
    let limiter := NewLimiter rl.r rl.b now
    (limiter, { rl with limiters := rl.limiters.set key limiter })

/-- Go `RateLimiter.Allow`, called when the clock reads `now`; the table holds
pointers, so the limiter changed by `limiter.Allow()` is the one in the table. -/
def Allow (rl : RateLimiter) (key : String) (now : Seconds) : Bool × RateLimiter :=
  let got := getLimiter rl key now
  let res := got.1.Allow now
  (res.1, { got.2 with limiters := got.2.limiters.set key res.2 })

/-- Go `CleanupExpiredEntries`, called when the clock reads `now`. Every limiter
of the table is sent `Reserve()`; a key is deleted when the test of line 47
holds. That test hands a `time.Duration` to `time.Since`, which takes a
`time.Time`, so it is the parameter `stale` (delay, clock, expiration). -/
def CleanupExpiredEntries (stale : Option Seconds → Seconds → Seconds → Bool)
    (rl : RateLimiter) (expiration : Seconds) (now : Seconds) : RateLimiter :=
  { rl with limiters := fun key =>
      match rl.limiters key with
      | none => none
      | some limiter =>
        let res := limiter.Reserve now
        if stale res.1 now expiration then none else some res.2 }

/-- The results and the final state of `n` calls `Allow(key)` made one after
the other while the clock reads `now`. -/
def AllowRepeat (rl : RateLimiter) (key : String) (now : Seconds) :
    Nat → List Bool × RateLimiter
  | 0 => ([], rl)
  | n + 1 =>
    let first := Allow rl key now
    let rest := AllowRepeat first.2 key now n
    (first.1 :: rest.1, rest.2)

/-- The state after a sequence of `Allow(key)` calls, oldest first, each with
the clock reading it is made at. -/
def runAllows (rl : RateLimiter) (calls : List (String × Seconds)) : RateLimiter :=
  calls.foldl (fun s c => (Allow s c.1 c.2).2) rl

/-- The bound of the data model on every bucket of the table:
`0 ≤ tokensAvailable ≤ b`. -/
def TokensInRange (rl : RateLimiter) : Prop :=
  ∀ (key : String) (lim : Limiter), rl.limiters key = some lim →
    0 ≤ lim.tokensAvailable ∧ lim.tokensAvailable ≤ (rl.b : ℚ)

/-- The table of `rl` holds for `key` a limiter of the manager's rate and burst
with balance `k`, last refilled at `t`. -/
def Holds (rl : RateLimiter) (key : String) (k : ℚ) (t : Seconds) (r : ℚ) (b : Int) :
    Prop :=
  rl.r = r ∧ rl.b = b ∧
  rl.limiters key =
    some { tokensAvailable := k, lastRefill := t, capacity := b, refillRate := r }

/-- Every bucket of the table has the rate and burst of its manager, was last
refilled no later than `t`, and holds between 0 and `b` tokens. -/
def WellFormed (rl : RateLimiter) (t : Seconds) : Prop :=
  0 ≤ rl.r ∧ 0 ≤ rl.b ∧
  ∀ (key : String) (lim : Limiter), rl.limiters key = some lim →
    lim.capacity = rl.b ∧ lim.refillRate = rl.r ∧ lim.lastRefill ≤ t ∧
    0 ≤ lim.tokensAvailable ∧ lim.tokensAvailable ≤ (rl.b : ℚ)

/-- The results, in order, of the calls `Allow(key)` among a timed sequence of
`Allow` calls (oldest first) run from the state `rl`. -/
def resultsFor (key : String) (rl : RateLimiter) : List (String × Seconds) → List Bool
  | [] => []
  | c :: cs =>
    let res := Allow rl c.1 c.2
    if c.1 = key then res.1 :: resultsFor key res.2 cs else resultsFor key res.2 cs

/-- Two limiter states have the same rate, the same burst and the same bucket
for `key`. -/
def AgreeOn (key : String) (rl rl2 : RateLimiter) : Prop :=
  rl.r = rl2.r ∧ rl.b = rl2.b ∧ rl.limiters key = rl2.limiters key

end Security

namespace Auth

/-! ### password_reset.go -/

/-- The struct `PasswordResetToken`. -/
structure PasswordResetToken where
  Token : String
  ExpiresAt : Time
deriving DecidableEq

/-- Go `Time.After`. -/
def After (t u : Time) : Bool := decide (u < t)

/-- Go `ValidateResetToken`, called when the clock reads `now`: the returned
error, `none` for `nil`. -/
def ValidateResetToken (token : String) (storedToken : PasswordResetToken)
    (now : Time) : Option String :=
  if token ≠ storedToken.Token then some "invalid token"
  else if After now storedToken.ExpiresAt then some "token expired"
  else none

/-- A Go `byte`. -/
abbrev Byte := Fin 256

/-- The alphabet of `base64.URLEncoding` (package encoding/base64, RFC 4648
section 5). -/
def encodeURL : List Char :=
  "ABCDEFGHIJKLMNOPQRSTUVWXYZabcdefghijklmnopqrstuvwxyz0123456789-_".toList

/-- The table lookup `enc.encode[i]` of encoding/base64, for `i < 64`. -/
def encodeChar (i : Nat) : Char := encodeURL.getD i 'A'

/-- Go `base64.URLEncoding.EncodeToString`, as the characters of its result:
each group of three bytes gives four characters of the alphabet, and a last
group of two bytes or one byte is padded with `=`. With `val` the group as one
number, `val>>k & 0x3F` is `val / 2^k % 64`. -/
def EncodeToString : List Byte → List Char
  | a :: b :: c :: rest =>
    let val := a.val * 65536 + b.val * 256 + c.val
    encodeChar (val / 262144 % 64) :: encodeChar (val / 4096 % 64) ::
      encodeChar (val / 64 % 64) :: encodeChar (val % 64) :: EncodeToString rest
  | [a, b] =>
    let val := a.val * 65536 + b.val * 256
    [encodeChar (val / 262144 % 64), encodeChar (val / 4096 % 64),
      encodeChar (val / 64 % 64), '=']
  | [a] =>
    let val := a.val * 65536
    [encodeChar (val / 262144 % 64), encodeChar (val / 4096 % 64), '=', '=']
  | [] => []

/-- Go `GenerateResetToken`. The call `rand.Read(b)` on the 32-byte slice `b` is
the argument `read`: either the error of the source, or the bytes it wrote. -/
def GenerateResetToken (read : Except String (List Byte)) : String × Option String :=
  match read with
  | .error err => ("", some err)
  | .ok b => (String.mk (EncodeToString b), none)

/-- A character of the URL-safe alphabet: `A-Z`, `a-z`, `0-9`, `-` or `_`. -/
def isURLChar (c : Char) : Bool :=
  ('A' ≤ c && c ≤ 'Z') || ('a' ≤ c && c ≤ 'z') || ('0' ≤ c && c ≤ '9') ||
    c == '-' || c == '_'

/-! ### error_handling.go -/

/-- The struct `LoginError`. -/
structure LoginError where
  Code : Int
  Message : String
deriving DecidableEq

/-- A pointer `*LoginError`: the address of the allocation and the struct
stored there. -/
structure LoginErrorRef where
  addr : Nat
  val : LoginError
deriving DecidableEq

/-- The heap as far as pointer identity needs it: the next unused address.
Every `&LoginError{...}` takes that address and moves the heap on by one. -/
abbrev Heap := Nat

/-- The allocation `&LoginError{Code: code, Message: message}`. -/
def allocLoginError (heap : Heap) (code : Int) (message : String) :
    LoginErrorRef × Heap :=
  ({ addr := heap, val := { Code := code, Message := message } }, heap + 1)

/-- Go `(*LoginError).Error`, with `%d` as the decimal of the code. -/
def LoginErrorRef.Error (e : LoginErrorRef) : String :=
  "Error " ++ toString e.val.Code ++ ": " ++ e.val.Message

/-- Go `NewLoginError`. The returned `error` is `some` pointer: a value of
interface type `error` is here `nil` (`none`) or holds a `*LoginError`. -/
def NewLoginError (heap : Heap) (code : Int) (message : String) :
    Option LoginErrorRef × Heap :=
  let p := allocLoginError heap code message
  (some p.1, p.2)

/-- Go `HandleIncorrectLogin`. -/
def HandleIncorrectLogin (heap : Heap) (attempts : Int) : Option LoginErrorRef × Heap :=
  if attempts > 3 then
    NewLoginError heap 429 "Too many incorrect login attempts. Please try again later."
  else
    NewLoginError heap 401 "Incorrect username or password. Please try again."

/-- Go `errors.Is(err, target)` on these values. `*LoginError` has no `Is` and no
`Unwrap` method, so the answer is the comparison `err == target`, and two
pointers are equal when they are the same address. -/
def errorsIs (err target : Option LoginErrorRef) : Bool :=
  match err, target with
  | none, none => true
  | some p, some q => p.addr == q.addr
  | _, _ => false

/-- Go `ProvideGuidance`, called with the heap at `heap`: the target
`&LoginError{}` of `errors.Is` is allocated by the call. The assertion
`err.(*LoginError)` is the `some` case; on `nil` the guard is false, so the
`none` case of the switch is never reached. -/
def ProvideGuidance (heap : Heap) (err : Option LoginErrorRef) : String :=
  if errorsIs err (some (allocLoginError heap 0 "").1) then
    match err with
    | some e =>
      if e.val.Code = 429 then
        "You have exceeded the maximum number of login attempts. Please wait a few minutes before trying again."
      else if e.val.Code = 401 then
        "Please check your username and password and try again. If you have forgotten your password, use the password reset option."
      else "An unknown error occurred. Please contact support."
    | none => "An unexpected error occurred. Please try again."
  else "An unexpected error occurred. Please try again."

/-! ### mfa_integration.go -/

/-- The Go interface `error` as the MFA service uses it on a provider error:
a type with the method `Error() string`. -/
class GoError (E : Type) where
  Error : E → String

/-- The values made by `errors.New` are their message. -/
instance : GoError String where
  Error := fun s => s

/-- The interface `MFAProvider`, for a provider with state `σ` and errors `E`;
each method takes the state before the call and gives the state after it. -/
structure MFAProvider (σ E : Type) where
  SendToken : σ → String → Option E × σ
  ValidateToken : σ → String → String → (Bool × Option E) × σ

/-- The struct `MFAService`. -/
structure MFAService (σ E : Type) where
  provider : MFAProvider σ E

/-- Go `NewMFAService`. -/
def NewMFAService {σ E : Type} (provider : MFAProvider σ E) : MFAService σ E :=
  { provider := provider }

/-- The `*fmt.wrapError` that `fmt.Errorf` builds for a format with one `%w`:
the formatted message and the wrapped error. -/
structure WrapError (E : Type) where
  msg : String
  err : E

/-- Go `(*wrapError).Error`. -/
def WrapError.Error {E : Type} (e : WrapError E) : String := e.msg

/-- Go `(*wrapError).Unwrap`, what `errors.Unwrap` gives. -/
def WrapError.Unwrap {E : Type} (e : WrapError E) : E := e.err

/-- Go `fmt.Errorf(text + "%w", err)`: the message is `text` followed by
`err.Error()`. -/
def Errorf {E : Type} [GoError E] (text : String) (err : E) : WrapError E :=
  { msg := text ++ GoError.Error err, err := err }

/-- Go `InitiateMFA`, called with the provider in state `s`: the returned error
and the provider state after the call. -/
def InitiateMFA {σ E : Type} [GoError E] (m : MFAService σ E) (s : σ)
    (userID : String) : Option (WrapError E) × σ :=
  let res := m.provider.SendToken s userID
  match res.1 with
  | some err => (some (Errorf "failed to send MFA token: " err), res.2)
  | none => (none, res.2)

/-- Go `VerifyMFA`, called with the provider in state `s`: the returned pair and
the provider state after the call. -/
def VerifyMFA {σ E : Type} [GoError E] (m : MFAService σ E) (s : σ)
    (userID token : String) : (Bool × Option (WrapError E)) × σ :=
  let res := m.provider.ValidateToken s userID token
  match res.1.2 with
  | some err => ((false, some (Errorf "failed to validate MFA token: " err)), res.2)
  | none => ((res.1.1, none), res.2)

/-- A provider that counts the calls made to its methods next to its state. -/
def MFAProvider.counted {σ E : Type} (p : MFAProvider σ E) : MFAProvider (σ × Nat) E :=
  { SendToken := fun s userID =>
      ((p.SendToken s.1 userID).1, ((p.SendToken s.1 userID).2, s.2 + 1))
    ValidateToken := fun s userID token =>
      ((p.ValidateToken s.1 userID token).1,
       ((p.ValidateToken s.1 userID token).2, s.2 + 1)) }

/-- Go `MockMFAProvider`: the state is its map `tokens`; the `fmt.Printf` of
`SendToken` writes to standard output only. -/
def MockMFAProvider : MFAProvider (GoMap String) String :=
  { SendToken := fun tokens userID => (none, tokens.set userID "123456")
    ValidateToken := fun tokens userID token =>
      match tokens userID with
      | some expectedToken =>
        if expectedToken = token then ((true, none), tokens)
        else ((false, some "invalid token"), tokens)
      | none => ((false, some "token not found"), tokens) }

/-- Go `NewMockMFAProvider`: the state of a new mock provider. -/
def NewMockMFAProvider : GoMap String := GoMap.empty

/-- One call on an MFA service. -/
inductive MFACall where
  | initiate (userID : String)
  | verify (userID token : String)

/-- The provider state after one call on the service. -/
def MFACall.apply {σ E : Type} [GoError E] (m : MFAService σ E) (s : σ) : MFACall → σ
  | .initiate userID => (InitiateMFA m s userID).2
  | .verify userID token => (VerifyMFA m s userID token).2

/-- The provider state after a sequence of calls on the service, oldest first. -/
def runMFA {σ E : Type} [GoError E] (m : MFAService σ E) (s : σ)
    (calls : List MFACall) : σ :=
  calls.foldl (MFACall.apply m) s

/-! ### password_validation.go -/

/-- The classes of the Unicode general category that `ValidatePasswordStrength`
asks about: `Lu`, `Ll`, `Nd`, the punctuation categories, the symbol
categories, and the rest. Every code point has one category. -/
inductive RuneClass where
  | upper | lower | digit | punct | symbol | other
deriving DecidableEq

/-- The class of an ASCII code point in the tables of package unicode: `A-Z`,
`a-z`, `0-9`, the symbols `$ + < = > ^` grave accent `| ~`, and the other
printable characters apart from the space as punctuation. -/
def asciiClass (c : Char) : RuneClass :=
  let n := c.toNat
  if 65 ≤ n ∧ n ≤ 90 then .upper
  else if 97 ≤ n ∧ n ≤ 122 then .lower
  else if 48 ≤ n ∧ n ≤ 57 then .digit
  else if n = 36 ∨ n = 43 ∨ n = 60 ∨ n = 61 ∨ n = 62 ∨ n = 94 ∨ n = 96 ∨ n = 124 ∨ n = 126
    then .symbol
  else if 33 ≤ n ∧ n ≤ 126 then .punct
  else .other

/-- The class of a rune. Beyond ASCII the tables of package unicode, which are
not under src/, are the parameter `tables`. -/
def runeClass (tables : Char → RuneClass) (c : Char) : RuneClass :=
  if c.toNat < 128 then asciiClass c else tables c

/-- Go `unicode.IsUpper`. -/
def IsUpper (tables : Char → RuneClass) (c : Char) : Bool := runeClass tables c = .upper

/-- Go `unicode.IsLower`. -/
def IsLower (tables : Char → RuneClass) (c : Char) : Bool := runeClass tables c = .lower

/-- Go `unicode.IsDigit`. -/
def IsDigit (tables : Char → RuneClass) (c : Char) : Bool := runeClass tables c = .digit

/-- Go `unicode.IsPunct`. -/
def IsPunct (tables : Char → RuneClass) (c : Char) : Bool := runeClass tables c = .punct

/-- Go `unicode.IsSymbol`. -/
def IsSymbol (tables : Char → RuneClass) (c : Char) : Bool := runeClass tables c = .symbol

/-- The four flags that the loop of `ValidatePasswordStrength` sets. -/
structure Flags where
  hasUpper : Bool
  hasLower : Bool
  hasNumber : Bool
  hasSpecial : Bool
deriving DecidableEq

/-- One turn of the loop `for _, char := range password`: the `switch` takes the
first case that holds. -/
def scanChar (tables : Char → RuneClass) (f : Flags) (char : Char) : Flags :=
  if IsUpper tables char then { f with hasUpper := true }
  else if IsLower tables char then { f with hasLower := true }
  else if IsDigit tables char then { f with hasNumber := true }
  else if IsPunct tables char || IsSymbol tables char then { f with hasSpecial := true }
  else f

/-- Go `ValidatePasswordStrength`: the returned error, `none` for `nil`. The
password is a string of valid UTF-8: `len(password)` is its number of bytes and
`range` gives its code points. -/
def ValidatePasswordStrength (tables : Char → RuneClass) (password : String) :
    Option String :=
  let hasMinLen : Bool := decide (password.utf8ByteSize ≥ 8)
  let f := password.toList.foldl (scanChar tables)
    { hasUpper := false, hasLower := false, hasNumber := false, hasSpecial := false }
  if !hasMinLen then some "password must be at least 8 characters long"
  else if !f.hasUpper then some "password must contain at least one uppercase letter"
  else if !f.hasLower then some "password must contain at least one lowercase letter"
  else if !f.hasNumber then some "password must contain at least one number"
  else if !f.hasSpecial then some "password must contain at least one special character"
  else none

/-- A special character in the words of the specification: a printable ASCII character
that is neither alphanumeric nor the space. -/
def isSpecialASCII (c : Char) : Bool :=
  decide (32 ≤ c.toNat ∧ c.toNat ≤ 126) && !c.isAlphanum && c != ' '

end Auth

namespace Security

/-! ### data_encryption.go -/

/-- The table lookup `enc.decodeMap[c]` of encoding/base64 for
`base64.URLEncoding`: the index of `c` in the alphabet, `none` for a character
outside it. -/
def decodeChar (c : Char) : Option Nat :=
  if Auth.encodeURL.indexOf c < 64 then some (Auth.encodeURL.indexOf c) else none

/-- The message of `base64.CorruptInputError`, without its offset. -/
def errCorruptInput : String := "illegal base64 data"

/-- The conversion `byte(n)`: the low 8 bits. -/
def byteOf (n : Nat) : Auth.Byte := ⟨n % 256, Nat.mod_lt _ (by decide)⟩

/-- The decoding of padded base64, group by group, as encoding/base64 does it:
four characters of the alphabet give three bytes, a last group `xx==` gives one
byte and a last group `xxx=` two; anything else is a corrupt input. With `val`
the group as one number, the bytes are `val>>16`, `val>>8` and `val`. -/
def decodeQuanta : List Char → Except String (List Auth.Byte)
  | [] => .ok []
  | c0 :: c1 :: c2 :: c3 :: rest =>
    match decodeChar c0, decodeChar c1 with
    | some v0, some v1 =>
      if c2 = '=' then
        if c3 = '=' ∧ rest = [] then
          .ok [byteOf ((v0 * 262144 + v1 * 4096) / 65536)]
        else .error errCorruptInput
      else
        match decodeChar c2 with
        | none => .error errCorruptInput
        | some v2 =>
          if c3 = '=' then
            if rest = [] then
              .ok [byteOf ((v0 * 262144 + v1 * 4096 + v2 * 64) / 65536),
                   byteOf ((v0 * 262144 + v1 * 4096 + v2 * 64) / 256)]
            else .error errCorruptInput
          else
            match decodeChar c3 with
            | none => .error errCorruptInput
            | some v3 =>
              match decodeQuanta rest with
              | .error err => .error err
              | .ok bs =>
                .ok (byteOf ((v0 * 262144 + v1 * 4096 + v2 * 64 + v3) / 65536) ::
                     byteOf ((v0 * 262144 + v1 * 4096 + v2 * 64 + v3) / 256) ::
                     byteOf (v0 * 262144 + v1 * 4096 + v2 * 64 + v3) :: bs)
    | _, _ => .error errCorruptInput
  | _ => .error errCorruptInput

/-- Go `base64.URLEncoding.DecodeString`: carriage returns and line feeds are
ignored, the rest is decoded group by group. -/
def DecodeString (s : String) : Except String (List Auth.Byte) :=
  decodeQuanta (s.data.filter (fun c => c != '\r' && c != '\n'))

/-- The struct `cfb` of crypto/cipher: the feedback register `next`, the
current block of key stream `out` and how much of it is used. -/
structure cfb where
  next : List Auth.Byte
  out : List Auth.Byte
  outUsed : Nat
  decrypt : Bool

/-- Go `newCFB` of crypto/cipher, behind `cipher.NewCFBEncrypter` and
`cipher.NewCFBDecrypter`, for the block size 16 of AES. -/
def newCFB (iv : List Auth.Byte) (decrypt : Bool) : cfb :=
  { next := iv, out := List.replicate 16 0, outUsed := 16, decrypt := decrypt }

/-- Go `(*cfb).XORKeyStream`, one byte of `src` at a time: a used-up block of
key stream is replaced by the encryption of the register, the byte is xored
with the key stream, and the ciphertext byte (the input when decrypting, the
output when encrypting) goes into the register. The result is `dst` and the
stream afterwards. -/
def cfb.XORKeyStream (block : List Auth.Byte → List Auth.Byte) :
    cfb → List Auth.Byte → List Auth.Byte × cfb
  | x, [] => ([], x)
  | x, s :: src =>
    let x1 : cfb :=
      if x.outUsed = 16 then { x with out := block x.next, outUsed := 0 } else x
    let d : Auth.Byte := s ^^^ x1.out.getD x1.outUsed 0
    let x2 : cfb :=
      { x1 with next := x1.next.set x1.outUsed (if x1.decrypt then s else d),
                outUsed := x1.outUsed + 1 }
    let rest := cfb.XORKeyStream block x2 src
    (d :: rest.1, rest.2)

/-- Go `aes.NewCipher`: a key of 16, 24 or 32 bytes gives the block, any other
length the error `KeySizeError`. The block encryption of AES itself, which is
not under src/, is the parameter `aes` (key, then block). -/
def NewCipher (aes : List Auth.Byte → List Auth.Byte → List Auth.Byte)
    (key : List Auth.Byte) : Except String (List Auth.Byte → List Auth.Byte) :=
  if key.length = 16 ∨ key.length = 24 ∨ key.length = 32 then .ok (aes key)
  else .error ("crypto/aes: invalid key size " ++ toString key.length)

/-- Go `Encrypt`. The strings `plaintext` and `key` are their bytes. The call
`io.ReadFull(rand.Reader, iv)` on the first 16 bytes of `ciphertext` is the
argument `read`: the error of the source, or the bytes it wrote. -/
def Encrypt (aes : List Auth.Byte → List Auth.Byte → List Auth.Byte)
    (read : Except String (List Auth.Byte)) (plaintext key : List Auth.Byte) :
    String × Option String :=
  match NewCipher aes key with
  | .error err => ("", some err)
  | .ok block =>
    match read with
    | .error err => ("", some err)
    | .ok iv =>
      let stream := newCFB iv false
      (String.mk (Auth.EncodeToString (iv ++ (stream.XORKeyStream block plaintext).1)),
       none)

/-- Go `Decrypt`. The returned string is its bytes, `[]` for the empty string. -/
def Decrypt (aes : List Auth.Byte → List Auth.Byte → List Auth.Byte)
    (ciphertext : String) (key : List Auth.Byte) : List Auth.Byte × Option String :=
  match DecodeString ciphertext with
  | .error err => ([], some err)
  | .ok ciphertextBytes =>
    match NewCipher aes key with
    | .error err => ([], some err)
    | .ok block =>
      if ciphertextBytes.length < 16 then ([], some "ciphertext too short")
      else
        let iv := ciphertextBytes.take 16
        let stream := newCFB iv true
        ((stream.XORKeyStream block (ciphertextBytes.drop 16)).1, none)

end Security

/-! ## Session management: theorems -/

namespace Auth

theorem set_same {V : Type} (m : GoMap V) (k : String) (v : V) :
    (m.set k v) k = some v := by
  simp [GoMap.set]

theorem delete_same {V : Type} (m : GoMap V) (k : String) :
    (m.delete k) k = none := by
  simp [GoMap.delete]

theorem delete_other {V : Type} (m : GoMap V) (k j : String) (h : j ≠ k) :
    (m.delete k) j = m j := by
  simp [GoMap.delete, h]

theorem delete_absent {V : Type} (m : GoMap V) (k : String) (h : m k = none) :
    m.delete k = m := by
  funext j
  by_cases hj : j = k
  · subst hj; simp [GoMap.delete, h]
  · simp [GoMap.delete, hj]

theorem delete_delete {V : Type} (m : GoMap V) (k : String) :
    (m.delete k).delete k = m.delete k :=
  delete_absent _ _ (delete_same m k)

/-- C2: a session made by `CreateSession(userID, d)` at `t0`, with `d > 0`,
validates to `(userID, nil)` at every `t` with `t0 ≤ t < t0 + d`. -/
theorem createSession_validates_before_expiry (sm : SessionManager)
    (userID : String) (d : Duration) (t0 t : Time)
    (_hd : 0 < d) (_h0 : t0 ≤ t) (h1 : t < t0 + d) :
    (CreateSession sm userID d t0).1.2 = none ∧
    (ValidateSession (CreateSession sm userID d t0).2
        (CreateSession sm userID d t0).1.1 t).1 = (userID, none) := by
  have hlt : ¬ (t0 + d < t) := not_lt.mpr (le_of_lt h1)
  simp [CreateSession, ValidateSession, GoMap.set, Before, hlt]

theorem createSession_validates_before_expiry_witness :
    (CreateSession NewSessionManager "u1" 1800000000000 0).1.2 = none ∧
    (ValidateSession (CreateSession NewSessionManager "u1" 1800000000000 0).2
        (CreateSession NewSessionManager "u1" 1800000000000 0).1.1 0).1
      = ("u1", none) :=
  createSession_validates_before_expiry NewSessionManager "u1" 1800000000000 0 0
    (by decide) (by decide) (by decide)

theorem validateSession_state (sm : SessionManager) (sessionID : String) (now : Time) :
    (ValidateSession sm sessionID now).2 = sm := by
  unfold ValidateSession
  split
  · rfl
  · split <;> rfl

/-- C3, at the expiry instant: for `CreateSession("u1", 30 min)` at `t0 = 0`,
`ValidateSession` at `t = t0 + d` returns `("u1", nil)`, not the error. -/
theorem validate_at_expiry_instant_counterexample :
    (0 : Duration) < 1800000000000 ∧ (0 : Time) + 1800000000000 ≤ 1800000000000 ∧
    (ValidateSession (CreateSession NewSessionManager "u1" 1800000000000 0).2
        (CreateSession NewSessionManager "u1" 1800000000000 0).1.1 1800000000000).1
      = ("u1", none) ∧
    (ValidateSession (CreateSession NewSessionManager "u1" 1800000000000 0).2
        (CreateSession NewSessionManager "u1" 1800000000000 0).1.1 1800000000000).1
      ≠ ("", some errInvalidOrExpired) := by
  refine ⟨by decide, by decide, ?_, ?_⟩ <;>
    simp [CreateSession, ValidateSession, GoMap.set, Before, NewSessionManager]

/-- C3 (amended): a session made by `CreateSession(userID, d)` at `t0`, with
`d > 0`, fails to validate with the empty string and the "invalid or expired
session" error at every `t > t0 + d`; at `t = t0 + d` exactly it still
validates to `(userID, nil)`. -/
theorem createSession_fails_after_expiry (sm : SessionManager)
    (userID : String) (d : Duration) (t0 : Time) (_hd : 0 < d) :
    (∀ t : Time, t0 + d < t →
      (ValidateSession (CreateSession sm userID d t0).2
        (CreateSession sm userID d t0).1.1 t).1 = ("", some errInvalidOrExpired)) ∧
    (ValidateSession (CreateSession sm userID d t0).2
        (CreateSession sm userID d t0).1.1 (t0 + d)).1 = (userID, none) := by
  constructor
  · intro t ht
    simp [CreateSession, ValidateSession, GoMap.set, Before, ht]
  · simp [CreateSession, ValidateSession, GoMap.set, Before]

theorem createSession_fails_after_expiry_witness :
    (ValidateSession (CreateSession NewSessionManager "u1" 1800000000000 0).2
        (CreateSession NewSessionManager "u1" 1800000000000 0).1.1 1860000000000).1
      = ("", some errInvalidOrExpired) :=
  (createSession_fails_after_expiry NewSessionManager "u1" 1800000000000 0
    (by decide)).1 1860000000000 (by decide)

/-- C4, on the code: two `CreateSession` calls on a fresh manager, for "u1" and
then "u2", return the same identifier, and validating the first identifier
before its expiry returns "u2". -/
theorem createSession_ids_collide :
    (CreateSession NewSessionManager "u1" 1800000000000 0).1.1
      = (CreateSession (CreateSession NewSessionManager "u1" 1800000000000 0).2
          "u2" 1800000000000 0).1.1 ∧
    (ValidateSession
        (CreateSession (CreateSession NewSessionManager "u1" 1800000000000 0).2
          "u2" 1800000000000 0).2
        (CreateSession NewSessionManager "u1" 1800000000000 0).1.1 0).1
      = ("u2", none) := by
  constructor
  · rfl
  · simp [CreateSession, ValidateSession, GoMap.set, Before]

/-- C5: `EndSession(id)` leaves `id` absent and every other entry as it was;
a second `EndSession(id)` gives the same state; and when `id` is absent the
state is unchanged. -/
theorem endSession_idempotent_removal (sm : SessionManager) (id : String) :
    (EndSession sm id).sessions id = none ∧
    (∀ k : String, k ≠ id → (EndSession sm id).sessions k = sm.sessions k) ∧
    EndSession (EndSession sm id) id = EndSession sm id ∧
    (sm.sessions id = none → EndSession sm id = sm) := by
  refine ⟨delete_same _ _, fun k hk => delete_other _ _ _ hk, ?_, ?_⟩
  · simp [EndSession, delete_delete]
  · intro h
    cases sm with
    | mk tbl => simp only [EndSession]; rw [delete_absent tbl id h]

theorem endSession_idempotent_removal_witness :
    EndSession NewSessionManager "s1" = NewSessionManager :=
  (endSession_idempotent_removal NewSessionManager "s1").2.2.2 rfl

/-- C6, on the code: after `EndSession("randomSessionID")` validation fails at
once, but a later `CreateSession` issues the same identifier again and
`ValidateSession("randomSessionID")` then returns `("u2", nil)`. -/
theorem ended_session_validates_again :
    (ValidateSession (EndSession NewSessionManager "randomSessionID")
        "randomSessionID" 0).1 = ("", some errInvalidOrExpired) ∧
    (ValidateSession
        (runCalls (EndSession NewSessionManager "randomSessionID")
          [Call.create "u2" 1800000000000 0])
        "randomSessionID" 0).1 = ("u2", none) := by
  constructor
  · simp [EndSession, ValidateSession, GoMap.delete]
  · simp [runCalls, Call.apply, CreateSession, ValidateSession, GoMap.set, Before,
      generateSessionID]

/-- C7: for every manager state, time and identifier that is not a key of the
session table, `ValidateSession` returns the empty string and the "invalid or
expired session" error. -/
theorem validateSession_unknown (sm : SessionManager) (id : String) (now : Time)
    (h : sm.sessions id = none) :
    (ValidateSession sm id now).1 = ("", some "invalid or expired session") := by
  simp [ValidateSession, h, errInvalidOrExpired]

theorem validateSession_unknown_witness :
    NewSessionManager.sessions "" = none ∧
    (ValidateSession NewSessionManager "" 0).1
      = ("", some "invalid or expired session") :=
  ⟨rfl, validateSession_unknown NewSessionManager "" 0 rfl⟩

/-- C8, on the code: the session made at `t0 = 0` for one nanosecond has expired
at `now = 2`; `ValidateSession` fails there and the resulting state still
contains the identifier. -/
theorem expired_session_kept_counterexample :
    (ValidateSession (CreateSession NewSessionManager "u1" 1 0).2
        "randomSessionID" 2).1 = ("", some errInvalidOrExpired) ∧
    (ValidateSession (CreateSession NewSessionManager "u1" 1 0).2
        "randomSessionID" 2).2.sessions "randomSessionID"
      = some { UserID := "u1", ExpiresAt := 1 } ∧
    (ValidateSession (CreateSession NewSessionManager "u1" 1 0).2
        "randomSessionID" 2).2.sessions "randomSessionID" ≠ none := by
  refine ⟨?_, ?_, ?_⟩ <;>
    simp [CreateSession, ValidateSession, GoMap.set, Before, generateSessionID]

/-- C8 (amended): when `id` maps to a session whose `ExpiresAt` is before the
current time, `ValidateSession(id)` fails with the empty string and the
"invalid or expired session" error and leaves the session table unchanged, the
expired entry included. -/
theorem validateSession_expired_keeps_entry (sm : SessionManager) (id : String)
    (s : Session) (now : Time) (h : sm.sessions id = some s)
    (hexp : s.ExpiresAt < now) :
    (ValidateSession sm id now).1 = ("", some errInvalidOrExpired) ∧
    (ValidateSession sm id now).2 = sm ∧
    (ValidateSession sm id now).2.sessions id = some s := by
  refine ⟨?_, validateSession_state sm id now, ?_⟩
  · simp [ValidateSession, h, Before, hexp]
  · rw [validateSession_state]; exact h

theorem validateSession_expired_keeps_entry_witness :
    (ValidateSession (CreateSession NewSessionManager "u1" 1 0).2
        "randomSessionID" 2).2 = (CreateSession NewSessionManager "u1" 1 0).2 :=
  (validateSession_expired_keeps_entry (CreateSession NewSessionManager "u1" 1 0).2
    "randomSessionID" { UserID := "u1", ExpiresAt := 1 } 2
    (by simp [CreateSession, GoMap.set, generateSessionID]) (by decide)).2.1

/-- C9: when `ValidateSession(id)` returns a userID without error, the session
table after the call is the table before it: every key has the same entry, so
no expiry is extended. -/
theorem validateSession_success_no_mutation (sm : SessionManager) (id : String)
    (now : Time) (_h : (ValidateSession sm id now).1.2 = none) :
    (ValidateSession sm id now).2 = sm ∧
    ∀ k : String, (ValidateSession sm id now).2.sessions k = sm.sessions k := by
  refine ⟨validateSession_state sm id now, fun k => ?_⟩
  rw [validateSession_state]

theorem validateSession_success_no_mutation_witness :
    (ValidateSession (CreateSession NewSessionManager "u1" 1800000000000 0).2
        "randomSessionID" 5).2 = (CreateSession NewSessionManager "u1" 1800000000000 0).2 :=
  (validateSession_success_no_mutation
    (CreateSession NewSessionManager "u1" 1800000000000 0).2 "randomSessionID" 5
    (by simp [CreateSession, ValidateSession, GoMap.set, Before, generateSessionID])).1

end Auth

/-! ## Rate limiting: theorems -/

namespace Security

theorem allow_of_holds (rl : RateLimiter) (key : String) (k : ℚ) (t now : Seconds)
    (r : ℚ) (b : Int) (h : Holds rl key k t r b) :
    (Allow rl key now).1 =
      decide (1 ≤ min (b : ℚ) (k + (now - t) * r)) ∧
    Holds (Allow rl key now).2 key
      (if 1 ≤ min (b : ℚ) (k + (now - t) * r) then min (b : ℚ) (k + (now - t) * r) - 1
       else min (b : ℚ) (k + (now - t) * r)) now r b := by
  obtain ⟨hr, hb, hk⟩ := h
  by_cases hc : 1 ≤ min (b : ℚ) (k + (now - t) * r)
  · simp [Allow, getLimiter, hk, Limiter.Allow, Limiter.refill, Holds, hr, hb,
      GoMap.set, hc]
  · simp [Allow, getLimiter, hk, Limiter.Allow, Limiter.refill, Holds, hr, hb,
      GoMap.set, hc]

theorem allow_fresh (rl : RateLimiter) (key : String) (now : Seconds)
    (h : rl.limiters key = none) (hb : 1 ≤ rl.b) :
    (Allow rl key now).1 = true ∧
    Holds (Allow rl key now).2 key ((rl.b : ℚ) - 1) now rl.r rl.b := by
  have hb1 : (1 : ℚ) ≤ (rl.b : ℚ) := by exact_mod_cast hb
  simp [Allow, getLimiter, h, Limiter.Allow, Limiter.refill, NewLimiter, Holds,
    GoMap.set, hb1]

theorem allow_same_instant_true (rl : RateLimiter) (key : String) (k : ℚ)
    (t : Seconds) (r : ℚ) (b : Int) (h : Holds rl key k t r b)
    (h1 : 1 ≤ k) (hkb : k ≤ (b : ℚ)) :
    (Allow rl key t).1 = true ∧ Holds (Allow rl key t).2 key (k - 1) t r b := by
  have hm : min (b : ℚ) (k + (t - t) * r) = k := by
    rw [sub_self, zero_mul, add_zero]; exact min_eq_right hkb
  have := allow_of_holds rl key k t t r b h
  rw [hm] at this
  simpa [h1] using this

theorem allow_same_instant_false (rl : RateLimiter) (key : String) (k : ℚ)
    (t : Seconds) (r : ℚ) (b : Int) (h : Holds rl key k t r b)
    (h1 : k < 1) (hkb : k ≤ (b : ℚ)) :
    (Allow rl key t).1 = false ∧ Holds (Allow rl key t).2 key k t r b := by
  have hm : min (b : ℚ) (k + (t - t) * r) = k := by
    rw [sub_self, zero_mul, add_zero]; exact min_eq_right hkb
  have := allow_of_holds rl key k t t r b h
  rw [hm] at this
  simpa [not_le.mpr h1] using this

theorem allowRepeat_true (n : Nat) :
    ∀ (rl : RateLimiter) (key : String) (k : Nat) (t : Seconds) (r : ℚ) (b : Int),
      Holds rl key (k : ℚ) t r b → n ≤ k → (k : ℚ) ≤ (b : ℚ) →
      (AllowRepeat rl key t n).1 = List.replicate n true ∧
      Holds (AllowRepeat rl key t n).2 key ((k : ℚ) - (n : ℚ)) t r b := by
  induction n with
  | zero =>
    intro rl key k t r b h _ _
    simpa [AllowRepeat] using h
  | succ n ih =>
    intro rl key k t r b h hn hkb
    have h1 : (1 : ℚ) ≤ (k : ℚ) := by exact_mod_cast (by omega : 1 ≤ k)
    obtain ⟨hok, hst⟩ := allow_same_instant_true rl key k t r b h h1 hkb
    have hk1 : ((k - 1 : Nat) : ℚ) = (k : ℚ) - 1 := by
      rw [Nat.cast_sub (by omega : 1 ≤ k)]; simp
    rw [← hk1] at hst
    have hkb1 : ((k - 1 : Nat) : ℚ) ≤ (b : ℚ) := by rw [hk1]; linarith
    obtain ⟨hoks, hfin⟩ := ih (Allow rl key t).2 key (k - 1) t r b hst (by omega) hkb1
    constructor
    · simp [AllowRepeat, hok, hoks, List.replicate_succ]
    · have : ((k - 1 : Nat) : ℚ) - (n : ℚ) = (k : ℚ) - ((n + 1 : Nat) : ℚ) := by
        rw [hk1]; push_cast; ring
      rw [this] at hfin
      simpa [AllowRepeat] using hfin

/-- C1: on a limiter with capacity `b ≥ 1` and refill rate `r > 0`, for a key
with no bucket yet: `b` calls `Allow(key)` at one instant `t0` all return true,
the next call at `t0` returns false, and after a wait of exactly `1/r` seconds
the next call returns true and the one right after it returns false. -/
theorem allow_burst_then_refill (rl : RateLimiter) (key : String) (t0 : Seconds)
    (hb : 1 ≤ rl.b) (hr : 0 < rl.r) (hfresh : rl.limiters key = none) :
    (AllowRepeat rl key t0 rl.b.toNat).1 = List.replicate rl.b.toNat true ∧
    (Allow (AllowRepeat rl key t0 rl.b.toNat).2 key t0).1 = false ∧
    (Allow (Allow (AllowRepeat rl key t0 rl.b.toNat).2 key t0).2 key
        (t0 + 1 / rl.r)).1 = true ∧
    (Allow (Allow (Allow (AllowRepeat rl key t0 rl.b.toNat).2 key t0).2 key
        (t0 + 1 / rl.r)).2 key (t0 + 1 / rl.r)).1 = false := by
  obtain ⟨m, hm⟩ : ∃ m : Nat, rl.b = (m : Int) + 1 :=
    ⟨(rl.b - 1).toNat, by omega⟩
  have hn : rl.b.toNat = m + 1 := by omega
  have hbq : (rl.b : ℚ) = (m : ℚ) + 1 := by rw [hm]; push_cast; ring
  obtain ⟨hok, hst⟩ := allow_fresh rl key t0 hfresh hb
  have hst1 : Holds (Allow rl key t0).2 key ((m : Nat) : ℚ) t0 rl.r rl.b := by
    have : (rl.b : ℚ) - 1 = (m : ℚ) := by rw [hbq]; ring
    rwa [this] at hst
  obtain ⟨hoks, hfin⟩ := allowRepeat_true m (Allow rl key t0).2 key m t0 rl.r rl.b
    hst1 le_rfl (by rw [hbq]; linarith)
  rw [sub_self] at hfin
  have hrep : AllowRepeat rl key t0 (m + 1) =
      (true :: List.replicate m true, (AllowRepeat (Allow rl key t0).2 key t0 m).2) := by
    simp [AllowRepeat, hok, hoks]
  rw [hn, hrep]
  have hb0 : (0 : ℚ) ≤ (rl.b : ℚ) := by rw [hbq]; positivity
  have hb1 : (1 : ℚ) ≤ (rl.b : ℚ) := by rw [hbq]; linarith [(Nat.cast_nonneg m : (0 : ℚ) ≤ m)]
  obtain ⟨hfalse, hst2⟩ := allow_same_instant_false _ key 0 t0 rl.r rl.b hfin
    (by norm_num) hb0
  have hwait := allow_of_holds _ key 0 t0 (t0 + 1 / rl.r) rl.r rl.b hst2
  have hone : min (rl.b : ℚ) (0 + (t0 + 1 / rl.r - t0) * rl.r) = 1 := by
    have : (0 : ℚ) + (t0 + 1 / rl.r - t0) * rl.r = 1 := by
      have hne : rl.r ≠ 0 := ne_of_gt hr
      field_simp
      ring
    rw [this]; exact min_eq_right hb1
  rw [hone] at hwait
  simp only [le_refl, if_true, decide_True, sub_self] at hwait
  obtain ⟨htrue, hst3⟩ := hwait
  obtain ⟨hfalse2, _⟩ := allow_same_instant_false _ key 0 (t0 + 1 / rl.r) rl.r rl.b hst3
    (by norm_num) hb0
  exact ⟨by simp [List.replicate_succ], hfalse, htrue, hfalse2⟩

theorem allow_burst_then_refill_witness :
    (AllowRepeat (NewRateLimiter (1 / 60) 5) "ip1" 0
        (NewRateLimiter (1 / 60) 5).b.toNat).1
      = List.replicate (NewRateLimiter (1 / 60) 5).b.toNat true ∧
    (Allow (AllowRepeat (NewRateLimiter (1 / 60) 5) "ip1" 0
        (NewRateLimiter (1 / 60) 5).b.toNat).2 "ip1" 0).1 = false ∧
    (Allow (Allow (AllowRepeat (NewRateLimiter (1 / 60) 5) "ip1" 0
        (NewRateLimiter (1 / 60) 5).b.toNat).2 "ip1" 0).2 "ip1"
        (0 + 1 / (NewRateLimiter (1 / 60) 5).r)).1 = true ∧
    (Allow (Allow (Allow (AllowRepeat (NewRateLimiter (1 / 60) 5) "ip1" 0
        (NewRateLimiter (1 / 60) 5).b.toNat).2 "ip1" 0).2 "ip1"
        (0 + 1 / (NewRateLimiter (1 / 60) 5).r)).2 "ip1"
        (0 + 1 / (NewRateLimiter (1 / 60) 5).r)).1 = false :=
  allow_burst_then_refill (NewRateLimiter (1 / 60) 5) "ip1" 0
    (by norm_num [NewRateLimiter]) (by norm_num [NewRateLimiter]) rfl

theorem wellFormed_new (r : ℚ) (b : Int) (t : Seconds) (hr : 0 ≤ r) (hb : 0 ≤ b) :
    WellFormed (NewRateLimiter r b) t := by
  refine ⟨hr, hb, ?_⟩
  intro key lim h
  simp [NewRateLimiter, GoMap.empty] at h

theorem limiter_allow_range (lim : Limiter) (now : Seconds)
    (hr : 0 ≤ lim.refillRate) (hc : 0 ≤ lim.capacity) (ht : lim.lastRefill ≤ now)
    (h0 : 0 ≤ lim.tokensAvailable) :
    (lim.Allow now).2.capacity = lim.capacity ∧
    (lim.Allow now).2.refillRate = lim.refillRate ∧
    (lim.Allow now).2.lastRefill = now ∧
    0 ≤ (lim.Allow now).2.tokensAvailable ∧
    (lim.Allow now).2.tokensAvailable ≤ (lim.capacity : ℚ) := by
  have hcq : (0 : ℚ) ≤ (lim.capacity : ℚ) := by exact_mod_cast hc
  have hadd : 0 ≤ lim.tokensAvailable + (now - lim.lastRefill) * lim.refillRate :=
    add_nonneg h0 (mul_nonneg (sub_nonneg.mpr ht) hr)
  have hlo : 0 ≤ lim.refill now := le_min hcq hadd
  have hhi : lim.refill now ≤ (lim.capacity : ℚ) := min_le_left _ _
  by_cases h1 : 1 ≤ lim.refill now
  · have e : lim.Allow now =
        (true, { lim with tokensAvailable := lim.refill now - 1, lastRefill := now }) := by
      simp [Limiter.Allow, h1]
    rw [e]
    exact ⟨rfl, rfl, rfl, sub_nonneg.mpr h1, le_trans (sub_le_self _ zero_le_one) hhi⟩
  · have e : lim.Allow now =
        (false, { lim with tokensAvailable := lim.refill now, lastRefill := now }) := by
      simp [Limiter.Allow, h1]
    rw [e]
    exact ⟨rfl, rfl, rfl, hlo, hhi⟩

theorem allow_keeps_config (rl : RateLimiter) (key : String) (now : Seconds) :
    (Allow rl key now).2.r = rl.r ∧ (Allow rl key now).2.b = rl.b := by
  unfold Allow getLimiter
  cases rl.limiters key <;> exact ⟨rfl, rfl⟩

theorem wellFormed_allow (rl : RateLimiter) (key : String) (t now : Seconds)
    (h : WellFormed rl t) (ht : t ≤ now) : WellFormed (Allow rl key now).2 now := by
  obtain ⟨hr, hb, hall⟩ := h
  obtain ⟨er, eb⟩ := allow_keeps_config rl key now
  have hbq : (0 : ℚ) ≤ (rl.b : ℚ) := by exact_mod_cast hb
  have hcur : ∀ cur : Limiter, cur.capacity = rl.b → cur.refillRate = rl.r →
      cur.lastRefill ≤ now → 0 ≤ cur.tokensAvailable →
      (cur.Allow now).2.capacity = rl.b ∧ (cur.Allow now).2.refillRate = rl.r ∧
      (cur.Allow now).2.lastRefill ≤ now ∧ 0 ≤ (cur.Allow now).2.tokensAvailable ∧
      (cur.Allow now).2.tokensAvailable ≤ (rl.b : ℚ) := by
    intro cur hc hrr hl h0
    obtain ⟨a, b, c, d, e⟩ := limiter_allow_range cur now (hrr ▸ hr) (hc ▸ hb) hl h0
    exact ⟨a.trans hc, b.trans hrr, le_of_eq c, d, by rw [← hc]; exact e⟩
  refine ⟨er ▸ hr, eb ▸ hb, ?_⟩
  intro j lim hj
  rw [er, eb]
  cases hk : rl.limiters key with
  | none =>
    by_cases hjk : j = key
    · subst hjk
      simp only [Allow, getLimiter, hk, GoMap.set, if_true, Option.some.injEq] at hj
      subst hj
      exact hcur (NewLimiter rl.r rl.b now) rfl rfl (le_refl _)
        (by simpa [NewLimiter] using hbq)
    · simp only [Allow, getLimiter, hk, GoMap.set, hjk, if_false] at hj
      obtain ⟨a, b, c, d, e⟩ := hall j lim hj
      exact ⟨a, b, c.trans ht, d, e⟩
  | some cur =>
    obtain ⟨ca, cb, cc, cd, _⟩ := hall key cur hk
    by_cases hjk : j = key
    · subst hjk
      simp only [Allow, getLimiter, hk, GoMap.set, if_true, Option.some.injEq] at hj
      subst hj
      exact hcur cur ca cb (cc.trans ht) cd
    · simp only [Allow, getLimiter, hk, GoMap.set, hjk, if_false] at hj
      obtain ⟨a, b, c, d, e⟩ := hall j lim hj
      exact ⟨a, b, c.trans ht, d, e⟩

theorem wellFormed_runAllows (calls : List (String × Seconds)) :
    ∀ (rl : RateLimiter) (t : Seconds), WellFormed rl t →
      List.Chain (fun a c => a ≤ c) t (calls.map Prod.snd) →
      ∃ u : Seconds, WellFormed (runAllows rl calls) u := by
  induction calls with
  | nil => intro rl t h _; exact ⟨t, h⟩
  | cons c cs ih =>
    intro rl t h hch
    simp only [List.map_cons, List.chain_cons] at hch
    exact ih (Allow rl c.1 c.2).2 c.2 (wellFormed_allow rl c.1 t c.2 h hch.1) hch.2

/-- The bound `0 ≤ tokensAvailable ≤ b` holds in every state reached from
`NewRateLimiter(r, b)`, `r ≥ 0`, `b ≥ 0`, by `Allow` calls at non-decreasing
times. -/
theorem tokensInRange_runAllows (r : ℚ) (b : Int) (hr : 0 ≤ r) (hb : 0 ≤ b)
    (t : Seconds) (calls : List (String × Seconds))
    (hch : List.Chain (fun a c => a ≤ c) t (calls.map Prod.snd)) :
    TokensInRange (runAllows (NewRateLimiter r b) calls) := by
  obtain ⟨u, _, _, hall⟩ :=
    wellFormed_runAllows calls (NewRateLimiter r b) t (wellFormed_new r b t hr hb) hch
  intro key lim h
  exact ⟨(hall key lim h).2.2.2.1, (hall key lim h).2.2.2.2⟩

/-- The bound under a cleanup depends on the test of line 47: from
`NewRateLimiter(1, 1)`, after `Allow("k")` at time 0 the bucket of "k" holds 0
tokens; `CleanupExpiredEntries(10 s)` at time 0 sends it `Reserve()`, and the
key is deleted if the test holds and kept with `tokensAvailable = -1` if it
does not. -/
theorem cleanup_books_token (stale : Option Seconds → Seconds → Seconds → Bool) :
    (Allow (NewRateLimiter 1 1) "k" 0).1 = true ∧
    (Allow (NewRateLimiter 1 1) "k" 0).2.limiters "k"
      = some { tokensAvailable := 0, lastRefill := 0, capacity := 1, refillRate := 1 } ∧
    (CleanupExpiredEntries stale (Allow (NewRateLimiter 1 1) "k" 0).2 10 0).limiters "k"
      = (if stale (some 1) 0 10 then none
         else some { tokensAvailable := -1, lastRefill := 0, capacity := 1,
                     refillRate := 1 }) := by
  refine ⟨?_, ?_, ?_⟩
  · simp [Allow, getLimiter, NewRateLimiter, GoMap.empty, Limiter.Allow,
      Limiter.refill, NewLimiter]
  · simp [Allow, getLimiter, NewRateLimiter, GoMap.empty, GoMap.set, Limiter.Allow,
      Limiter.refill, NewLimiter]
  · norm_num [CleanupExpiredEntries, Allow, getLimiter, NewRateLimiter, GoMap.empty,
      GoMap.set, Limiter.Allow, Limiter.refill, NewLimiter, Limiter.Reserve]

theorem allow_other_key (rl : RateLimiter) (key j : String) (now : Seconds)
    (h : j ≠ key) : (Allow rl key now).2.limiters j = rl.limiters j := by
  unfold Allow getLimiter
  cases rl.limiters key <;> simp [GoMap.set, h]

theorem agreeOn_refl (key : String) (rl : RateLimiter) : AgreeOn key rl rl :=
  ⟨rfl, rfl, rfl⟩

theorem agreeOn_allow_same (key : String) (rl rl2 : RateLimiter) (now : Seconds)
    (h : AgreeOn key rl rl2) :
    (Allow rl key now).1 = (Allow rl2 key now).1 ∧
    AgreeOn key (Allow rl key now).2 (Allow rl2 key now).2 := by
  obtain ⟨hr, hb, hk⟩ := h
  unfold AgreeOn Allow getLimiter
  rw [← hk, ← hr, ← hb]
  cases rl.limiters key <;> simp [GoMap.set, hr, hb]

theorem agreeOn_allow_left (key k : String) (rl rl2 : RateLimiter) (now : Seconds)
    (hk : key ≠ k) (h : AgreeOn key rl rl2) : AgreeOn key (Allow rl k now).2 rl2 := by
  obtain ⟨hr, hb, hl⟩ := h
  obtain ⟨er, eb⟩ := allow_keeps_config rl k now
  exact ⟨er.trans hr, eb.trans hb, (allow_other_key rl k key now hk).trans hl⟩

theorem agreeOn_allow_right (key k : String) (rl rl2 : RateLimiter) (now : Seconds)
    (hk : key ≠ k) (h : AgreeOn key rl rl2) : AgreeOn key rl (Allow rl2 k now).2 := by
  obtain ⟨hr, hb, hl⟩ := h
  obtain ⟨er, eb⟩ := allow_keeps_config rl2 k now
  exact ⟨hr.trans er.symm, hb.trans eb.symm, hl.trans (allow_other_key rl2 k key now hk).symm⟩

theorem resultsFor_filter (k1 k2 : String) (h12 : k1 ≠ k2)
    (calls : List (String × Seconds)) :
    ∀ rl rl2 : RateLimiter, AgreeOn k2 rl rl2 →
      resultsFor k2 rl calls
        = resultsFor k2 rl2 (calls.filter (fun c => decide (c.1 ≠ k1))) := by
  induction calls with
  | nil => intro rl rl2 _; simp [resultsFor]
  | cons c cs ih =>
    intro rl rl2 h
    by_cases hc1 : c.1 = k1
    · have hc2 : c.1 ≠ k2 := fun e => h12 (hc1.symm.trans e)
      have hfil : (c :: cs).filter (fun c => decide (c.1 ≠ k1))
          = cs.filter (fun c => decide (c.1 ≠ k1)) := by
        simp [List.filter_cons, hc1]
      rw [hfil]
      simp only [resultsFor, hc2, if_false]
      exact ih _ _ (agreeOn_allow_left k2 c.1 rl rl2 c.2 (Ne.symm hc2) h)
    · have hfil : (c :: cs).filter (fun c => decide (c.1 ≠ k1))
          = c :: cs.filter (fun c => decide (c.1 ≠ k1)) := by
        simp [List.filter_cons, hc1]
      rw [hfil]
      by_cases hc2 : c.1 = k2
      · have hh : AgreeOn c.1 rl rl2 := hc2 ▸ h
        obtain ⟨hres, hst⟩ := agreeOn_allow_same c.1 rl rl2 c.2 hh
        simp only [resultsFor, hc2, if_true]
        rw [hc2] at hres hst
        rw [hres, ih _ _ hst]
      · simp only [resultsFor, hc2, if_false]
        exact ih _ _ (agreeOn_allow_right k2 c.1 _ _ c.2 (Ne.symm hc2)
          (agreeOn_allow_left k2 c.1 rl rl2 c.2 (Ne.symm hc2) h))

/-- C11, on the code: from `NewRateLimiter(1, 2)`, after `Allow("k")` at time 0
the bucket of "k" holds 1 token. `CleanupExpiredEntries(10 s)` at time 0 sends
it `Reserve()`: whatever the test of line 47 answers, the key is either deleted
(though touched 0 s ago) or kept with 0 tokens instead of 1, and in the kept
case the next `Allow("k")` returns false where it returned true without the
cleanup. -/
theorem cleanup_changes_retained_bucket
    (stale : Option Seconds → Seconds → Seconds → Bool) :
    (Allow (NewRateLimiter 1 2) "k" 0).2.limiters "k"
      = some { tokensAvailable := 1, lastRefill := 0, capacity := 2, refillRate := 1 } ∧
    (CleanupExpiredEntries stale (Allow (NewRateLimiter 1 2) "k" 0).2 10 0).limiters "k"
      = (if stale (some 0) 0 10 then none
         else some { tokensAvailable := 0, lastRefill := 0, capacity := 2,
                     refillRate := 1 }) ∧
    (CleanupExpiredEntries stale (Allow (NewRateLimiter 1 2) "k" 0).2 10 0).limiters "k"
      ≠ (Allow (NewRateLimiter 1 2) "k" 0).2.limiters "k" ∧
    (Allow (Allow (NewRateLimiter 1 2) "k" 0).2 "k" 0).1 = true ∧
    (Allow (CleanupExpiredEntries stale (Allow (NewRateLimiter 1 2) "k" 0).2 10 0)
        "k" 0).1 = stale (some 0) 0 10 := by
  have hs : (Allow (NewRateLimiter 1 2) "k" 0).2.limiters "k"
      = some { tokensAvailable := 1, lastRefill := 0, capacity := 2, refillRate := 1 } := by
    norm_num [Allow, getLimiter, NewRateLimiter, GoMap.empty, GoMap.set, Limiter.Allow,
      Limiter.refill, NewLimiter]
  have hc : (CleanupExpiredEntries stale (Allow (NewRateLimiter 1 2) "k" 0).2 10 0).limiters
      "k" = (if stale (some 0) 0 10 then none
         else some { tokensAvailable := 0, lastRefill := 0, capacity := 2,
                     refillRate := 1 }) := by
    simp only [CleanupExpiredEntries, hs]
    norm_num [Limiter.Reserve, Limiter.refill]
  obtain ⟨er, eb⟩ := allow_keeps_config (NewRateLimiter 1 2) "k" 0
  have hh : Holds (Allow (NewRateLimiter 1 2) "k" 0).2 "k" 1 0 1 2 :=
    ⟨er, eb, hs⟩
  refine ⟨hs, hc, ?_, ?_, ?_⟩
  · rw [hc, hs]
    cases stale (some 0) 0 10 <;> simp
  · exact (allow_same_instant_true _ "k" 1 0 1 2 hh le_rfl (by norm_num)).1
  · cases hst : stale (some 0) 0 10
    · rw [hst] at hc
      have hk : Holds (CleanupExpiredEntries stale (Allow (NewRateLimiter 1 2) "k" 0).2
          10 0) "k" 0 0 1 2 := ⟨er, eb, by simpa using hc⟩
      exact (allow_same_instant_false _ "k" 0 0 1 2 hk (by norm_num) (by norm_num)).1
    · rw [hst] at hc
      exact (allow_fresh _ "k" 0 (by simpa using hc)
        (by show (1 : Int) ≤ (Allow (NewRateLimiter 1 2) "k" 0).2.b; rw [eb]; decide)).1

/-- Serialised calls on one token: when the bucket of `key` holds exactly one
token and the clock does not move, the first of `n + 1` calls `Allow(key)` made
one after the other returns true and the `n` others return false. -/
theorem allowRepeat_single_token (n : Nat) (rl : RateLimiter) (key : String)
    (t : Seconds) (r : ℚ) (b : Int) (hb : 1 ≤ b) (h : Holds rl key 1 t r b) :
    (AllowRepeat rl key t (n + 1)).1 = true :: List.replicate n false := by
  have hbq : (1 : ℚ) ≤ (b : ℚ) := by exact_mod_cast hb
  obtain ⟨hok, hst⟩ := allow_same_instant_true rl key 1 t r b h le_rfl hbq
  rw [sub_self] at hst
  have hrest : ∀ (m : Nat) (s : RateLimiter), Holds s key 0 t r b →
      (AllowRepeat s key t m).1 = List.replicate m false := by
    intro m
    induction m with
    | zero => intro s _; simp [AllowRepeat]
    | succ m ih =>
      intro s hs
      obtain ⟨hf, hs2⟩ := allow_same_instant_false s key 0 t r b hs (by norm_num)
        (by linarith)
      simp [AllowRepeat, hf, ih _ hs2, List.replicate_succ]
  simp [AllowRepeat, hok, hrest n _ hst]

/-- C13: for distinct keys `k1 ≠ k2`, an `Allow(k1)` call leaves the rate, the
burst and the bucket of every key other than `k1` as they were, and in every
timed sequence of `Allow` calls the results of the `Allow(k2)` calls are those
of the same sequence with all `Allow(k1)` calls removed. -/
theorem allow_keys_independent (rl : RateLimiter) (k1 k2 : String) (h12 : k1 ≠ k2)
    (calls : List (String × Seconds)) :
    resultsFor k2 rl calls
      = resultsFor k2 rl (calls.filter (fun c => decide (c.1 ≠ k1))) ∧
    ∀ (now : Seconds),
      (Allow rl k1 now).2.r = rl.r ∧ (Allow rl k1 now).2.b = rl.b ∧
      ∀ j : String, j ≠ k1 → (Allow rl k1 now).2.limiters j = rl.limiters j := by
  refine ⟨resultsFor_filter k1 k2 h12 calls rl rl (agreeOn_refl k2 rl), fun now => ?_⟩
  obtain ⟨er, eb⟩ := allow_keeps_config rl k1 now
  exact ⟨er, eb, fun j hj => allow_other_key rl k1 j now hj⟩

theorem allow_keys_independent_witness :
    resultsFor "b" (NewRateLimiter 1 1) [("a", 0), ("b", 0), ("a", 0), ("b", 0)]
      = resultsFor "b" (NewRateLimiter 1 1)
          ([("a", 0), ("b", 0), ("a", 0), ("b", 0)].filter
            (fun c => decide (c.1 ≠ "a"))) :=
  (allow_keys_independent (NewRateLimiter 1 1) "a" "b" (by decide)
    [("a", 0), ("b", 0), ("a", 0), ("b", 0)]).1

end Security

/-! ## Password reset: theorems -/

namespace Auth

/-- C14: when the presented token differs from `stored.Token`,
`ValidateResetToken` returns the "invalid token" error at every current time,
times after `stored.ExpiresAt` included. -/
theorem validateResetToken_mismatch (token : String) (stored : PasswordResetToken)
    (now : Time) (h : token ≠ stored.Token) :
    ValidateResetToken token stored now = some "invalid token" := by
  simp [ValidateResetToken, h]

theorem validateResetToken_mismatch_witness :
    ValidateResetToken "abc" { Token := "abcd", ExpiresAt := 10 } 99
      = some "invalid token" ∧
    ValidateResetToken "" { Token := "abcd", ExpiresAt := 10 } 99
      = some "invalid token" :=
  ⟨validateResetToken_mismatch "abc" { Token := "abcd", ExpiresAt := 10 } 99 (by decide),
   validateResetToken_mismatch "" { Token := "abcd", ExpiresAt := 10 } 99 (by decide)⟩

/-- C15: when the presented token equals `stored.Token`, `ValidateResetToken`
returns the "token expired" error if and only if the current time is strictly
after `stored.ExpiresAt`, and returns nil otherwise; at `now = stored.ExpiresAt`
it returns nil. -/
theorem validateResetToken_match (token : String) (stored : PasswordResetToken)
    (now : Time) (h : token = stored.Token) :
    (ValidateResetToken token stored now = some "token expired" ↔ stored.ExpiresAt < now) ∧
    (¬ stored.ExpiresAt < now → ValidateResetToken token stored now = none) ∧
    ValidateResetToken token stored stored.ExpiresAt = none := by
  subst h
  by_cases hlt : stored.ExpiresAt < now
  · simp [ValidateResetToken, After, hlt]
  · simp [ValidateResetToken, After, hlt]

theorem validateResetToken_match_witness :
    (ValidateResetToken "tok" { Token := "tok", ExpiresAt := 10 } 11
        = some "token expired" ↔ (10 : Time) < 11) ∧
    (¬ (10 : Time) < 11 →
      ValidateResetToken "tok" { Token := "tok", ExpiresAt := 10 } 11 = none) ∧
    ValidateResetToken "tok" { Token := "tok", ExpiresAt := 10 } 10 = none :=
  validateResetToken_match "tok" { Token := "tok", ExpiresAt := 10 } 11 rfl

theorem encodeChar_isURLChar : ∀ i, i < 64 → isURLChar (encodeChar i) = true := by
  decide

theorem encodeChar_inj :
    ∀ i, i < 64 → ∀ j, j < 64 → encodeChar i = encodeChar j → i = j := by
  decide

theorem encodeToString_shape (n : Nat) :
    ∀ l : List Byte, l.length = 3 * n + 2 →
      ∃ body : List Char, EncodeToString l = body ++ ['='] ∧
        body.length = 4 * n + 3 ∧ ∀ c ∈ body, isURLChar c = true := by
  induction n with
  | zero =>
    intro l hl
    match l, hl with
    | [a, b], _ =>
      refine ⟨[encodeChar ((a.val * 65536 + b.val * 256) / 262144 % 64),
        encodeChar ((a.val * 65536 + b.val * 256) / 4096 % 64),
        encodeChar ((a.val * 65536 + b.val * 256) / 64 % 64)], rfl, rfl, ?_⟩
      intro c hc
      simp only [List.mem_cons, List.mem_singleton, List.not_mem_nil, or_false] at hc
      rcases hc with h | h | h <;> rw [h] <;>
        exact encodeChar_isURLChar _ (Nat.mod_lt _ (by norm_num))
  | succ n ih =>
    intro l hl
    match l, hl with
    | a :: b :: c :: rest, hl =>
      have hrest : rest.length = 3 * n + 2 := by
        simp only [List.length_cons] at hl; omega
      obtain ⟨body, hb, hlen, hurl⟩ := ih rest hrest
      refine ⟨encodeChar ((a.val * 65536 + b.val * 256 + c.val) / 262144 % 64) ::
        encodeChar ((a.val * 65536 + b.val * 256 + c.val) / 4096 % 64) ::
        encodeChar ((a.val * 65536 + b.val * 256 + c.val) / 64 % 64) ::
        encodeChar ((a.val * 65536 + b.val * 256 + c.val) % 64) :: body, ?_, ?_, ?_⟩
      · simp only [EncodeToString, hb, List.cons_append]
      · simp only [List.length_cons, hlen]; omega
      · intro x hx
        simp only [List.mem_cons] at hx
        rcases hx with h | h | h | h | h
        · rw [h]; exact encodeChar_isURLChar _ (Nat.mod_lt _ (by norm_num))
        · rw [h]; exact encodeChar_isURLChar _ (Nat.mod_lt _ (by norm_num))
        · rw [h]; exact encodeChar_isURLChar _ (Nat.mod_lt _ (by norm_num))
        · rw [h]; exact encodeChar_isURLChar _ (Nat.mod_lt _ (by norm_num))
        · exact hurl x h

theorem group_inj (a b c x y z : Byte)
    (h0 : (a.val * 65536 + b.val * 256 + c.val) / 262144 % 64
        = (x.val * 65536 + y.val * 256 + z.val) / 262144 % 64)
    (h1 : (a.val * 65536 + b.val * 256 + c.val) / 4096 % 64
        = (x.val * 65536 + y.val * 256 + z.val) / 4096 % 64)
    (h2 : (a.val * 65536 + b.val * 256 + c.val) / 64 % 64
        = (x.val * 65536 + y.val * 256 + z.val) / 64 % 64)
    (h3 : (a.val * 65536 + b.val * 256 + c.val) % 64
        = (x.val * 65536 + y.val * 256 + z.val) % 64) :
    a = x ∧ b = y ∧ c = z := by
  have ha := a.isLt; have hb := b.isLt; have hc := c.isLt
  have hx := x.isLt; have hy := y.isLt; have hz := z.isLt
  refine ⟨Fin.ext ?_, Fin.ext ?_, Fin.ext ?_⟩ <;> omega

theorem encodeToString_inj (n : Nat) :
    ∀ l m : List Byte, l.length = 3 * n + 2 → m.length = 3 * n + 2 →
      EncodeToString l = EncodeToString m → l = m := by
  induction n with
  | zero =>
    intro l m hl hm h
    match l, hl, m, hm with
    | [a, b], _, [x, y], _ =>
      simp only [EncodeToString, List.cons.injEq, and_true] at h
      obtain ⟨e0, e1, e2⟩ := h
      have i0 := encodeChar_inj _ (Nat.mod_lt _ (by norm_num)) _ (Nat.mod_lt _ (by norm_num)) e0
      have i1 := encodeChar_inj _ (Nat.mod_lt _ (by norm_num)) _ (Nat.mod_lt _ (by norm_num)) e1
      have i2 := encodeChar_inj _ (Nat.mod_lt _ (by norm_num)) _ (Nat.mod_lt _ (by norm_num)) e2
      have ha := a.isLt; have hb := b.isLt
      have hx := x.isLt; have hy := y.isLt
      have eax : a = x := Fin.ext (by omega)
      have eby : b = y := Fin.ext (by omega)
      rw [eax, eby]
  | succ n ih =>
    intro l m hl hm h
    match l, hl, m, hm with
    | a :: b :: c :: rest, hl, x :: y :: z :: rest2, hm =>
      simp only [EncodeToString, List.cons.injEq] at h
      obtain ⟨e0, e1, e2, e3, er⟩ := h
      have i0 := encodeChar_inj _ (Nat.mod_lt _ (by norm_num)) _ (Nat.mod_lt _ (by norm_num)) e0
      have i1 := encodeChar_inj _ (Nat.mod_lt _ (by norm_num)) _ (Nat.mod_lt _ (by norm_num)) e1
      have i2 := encodeChar_inj _ (Nat.mod_lt _ (by norm_num)) _ (Nat.mod_lt _ (by norm_num)) e2
      have i3 := encodeChar_inj _ (Nat.mod_lt _ (by norm_num)) _ (Nat.mod_lt _ (by norm_num)) e3
      obtain ⟨eax, eby, ecz⟩ := group_inj a b c x y z i0 i1 i2 i3
      have hrest : rest.length = 3 * n + 2 := by
        simp only [List.length_cons] at hl; omega
      have hrest2 : rest2.length = 3 * n + 2 := by
        simp only [List.length_cons] at hm; omega
      rw [eax, eby, ecz, ih rest rest2 hrest hrest2 er]


/-- C16: `GenerateResetToken` fails, with the empty string and the error of the
source, exactly when the source fails; on 32 bytes it returns their URL-safe
base64 encoding without error, a 44-character string whose first 43 characters
are of `A-Z`, `a-z`, `0-9`, `-`, `_` and whose last is `=`; and different
32-byte values give different tokens. -/
theorem generateResetToken_spec :
    (∀ read : Except String (List Byte),
      (GenerateResetToken read).2 ≠ none ↔ ∃ err, read = Except.error err) ∧
    (∀ err : String, GenerateResetToken (Except.error err) = ("", some err)) ∧
    (∀ b : List Byte, b.length = 32 →
      GenerateResetToken (Except.ok b) = (String.mk (EncodeToString b), none) ∧
      (GenerateResetToken (Except.ok b)).1.length = 44 ∧
      ∃ body : List Char,
        (GenerateResetToken (Except.ok b)).1 = String.mk (body ++ ['=']) ∧
        body.length = 43 ∧ ∀ c ∈ body, isURLChar c = true) ∧
    (∀ b d : List Byte, b.length = 32 → d.length = 32 →
      (GenerateResetToken (Except.ok b)).1 = (GenerateResetToken (Except.ok d)).1 →
      b = d) := by
  refine ⟨?_, fun err => rfl, ?_, ?_⟩
  · intro read
    cases read with
    | error err => simp [GenerateResetToken]
    | ok b => simp [GenerateResetToken]
  · intro b hb
    obtain ⟨body, hbody, hlen, hurl⟩ := encodeToString_shape 10 b hb
    refine ⟨rfl, ?_, body, ?_, hlen, hurl⟩
    · show (EncodeToString b).length = 44
      rw [hbody, List.length_append, hlen]; rfl
    · show String.mk (EncodeToString b) = String.mk (body ++ ['='])
      rw [hbody]
  · intro b d hb hd h
    have h2 : EncodeToString b = EncodeToString d := by
      have := congrArg String.data h
      simpa [GenerateResetToken] using this
    exact encodeToString_inj 10 b d hb hd h2

theorem generateResetToken_spec_witness :
    (GenerateResetToken (Except.ok (List.replicate 32 (0 : Byte)))).1.length = 44 :=
  (generateResetToken_spec.2.2.1 (List.replicate 32 (0 : Byte)) (by decide)).2.1

/-! ## Login errors: theorems -/

/-- C17: for every integer `attempts`, `HandleIncorrectLogin(attempts)` returns a
non-nil `*LoginError` whose `Code` is 429 if `attempts > 3` and 401 if
`attempts ≤ 3`. -/
theorem handleIncorrectLogin_code (heap : Heap) (attempts : Int) :
    ∃ e : LoginErrorRef, (HandleIncorrectLogin heap attempts).1 = some e ∧
      (3 < attempts → e.val.Code = 429) ∧ (attempts ≤ 3 → e.val.Code = 401) := by
  by_cases h : attempts > 3
  · refine ⟨(allocLoginError heap 429
      "Too many incorrect login attempts. Please try again later.").1, ?_, ?_, ?_⟩
    · simp [HandleIncorrectLogin, h, NewLoginError]
    · intro _; rfl
    · intro h3; exact absurd h (not_lt.mpr h3)
  · refine ⟨(allocLoginError heap 401
      "Incorrect username or password. Please try again.").1, ?_, ?_, ?_⟩
    · simp [HandleIncorrectLogin, h, NewLoginError]
    · intro h3; exact absurd h3 h
    · intro _; rfl

theorem handleIncorrectLogin_code_witness :
    (∃ e : LoginErrorRef, (HandleIncorrectLogin 0 (-2)).1 = some e ∧ e.val.Code = 401) ∧
    (∃ e : LoginErrorRef, (HandleIncorrectLogin 0 4).1 = some e ∧ e.val.Code = 429) :=
  ⟨(handleIncorrectLogin_code 0 (-2)).elim fun e h => ⟨e, h.1, h.2.2 (by decide)⟩,
   (handleIncorrectLogin_code 0 4).elim fun e h => ⟨e, h.1, h.2.1 (by decide)⟩⟩

/-- C18, on the code: for every error built by `NewLoginError(code, message)`,
whatever the code and however many allocations `k` are made in between,
`ProvideGuidance` returns "An unexpected error occurred. Please try again.":
the pointer is compared with the newly allocated `&LoginError{}`. In particular
this is the answer for the results of `HandleIncorrectLogin(5)` (code 429) and
`HandleIncorrectLogin(1)` (code 401). -/
theorem provideGuidance_always_unexpected (heap : Heap) (code : Int)
    (message : String) (k : Nat) :
    ProvideGuidance ((NewLoginError heap code message).2 + k)
        (NewLoginError heap code message).1
      = "An unexpected error occurred. Please try again." ∧
    ProvideGuidance ((HandleIncorrectLogin heap 5).2 + k) (HandleIncorrectLogin heap 5).1
      = "An unexpected error occurred. Please try again." ∧
    ProvideGuidance ((HandleIncorrectLogin heap 1).2 + k) (HandleIncorrectLogin heap 1).1
      = "An unexpected error occurred. Please try again." := by
  have hall : ∀ a : Nat, ¬ (a = a + 1 + k) := fun a => by omega
  have hne : ¬ (heap = heap + 1 + k) := hall heap
  refine ⟨?_, ?_, ?_⟩ <;>
    simp [ProvideGuidance, HandleIncorrectLogin, NewLoginError, allocLoginError,
      errorsIs, hne]

/-! ## MFA: theorems -/

/-- C19: when the provider's `ValidateToken(userID, token)` returns `(v, nil)`,
`VerifyMFA` returns `(v, nil)`; when it returns `(v, err)` with `err` non-nil,
`VerifyMFA` returns `(false, e)` where `e` unwraps to `err` and has the message
"failed to validate MFA token: " followed by the message of `err`. `VerifyMFA`
never returns true with a non-nil error, leaves the provider in the state of one
`ValidateToken(userID, token)` call, and a counting provider counts one call. -/
theorem verifyMFA_spec {σ E : Type} [GoError E] (p : MFAProvider σ E) (s : σ)
    (userID token : String) (n : Nat) :
    ((p.ValidateToken s userID token).1.2 = none →
      (VerifyMFA (NewMFAService p) s userID token).1
        = ((p.ValidateToken s userID token).1.1, none)) ∧
    (∀ err : E, (p.ValidateToken s userID token).1.2 = some err →
      ∃ e : WrapError E,
        (VerifyMFA (NewMFAService p) s userID token).1 = (false, some e) ∧
        e.Unwrap = err ∧
        e.Error = "failed to validate MFA token: " ++ GoError.Error err) ∧
    ¬ ((VerifyMFA (NewMFAService p) s userID token).1.1 = true ∧
       (VerifyMFA (NewMFAService p) s userID token).1.2 ≠ none) ∧
    (VerifyMFA (NewMFAService p) s userID token).2 = (p.ValidateToken s userID token).2 ∧
    (VerifyMFA (NewMFAService p.counted) (s, n) userID token).2.2 = n + 1 := by
  refine ⟨?_, ?_, ?_, ?_, ?_⟩
  · intro h
    simp [VerifyMFA, NewMFAService, h]
  · intro err h
    exact ⟨Errorf "failed to validate MFA token: " err,
      by simp [VerifyMFA, NewMFAService, h], rfl, rfl⟩
  · cases h : (p.ValidateToken s userID token).1.2 <;>
      simp [VerifyMFA, NewMFAService, h]
  · cases h : (p.ValidateToken s userID token).1.2 <;>
      simp [VerifyMFA, NewMFAService, h]
  · cases h : (p.ValidateToken s userID token).1.2 <;>
      simp [VerifyMFA, NewMFAService, MFAProvider.counted, h]

theorem verifyMFA_spec_witness :
    ∃ e : WrapError String,
      (VerifyMFA (NewMFAService MockMFAProvider) NewMockMFAProvider "u1" "123456").1
        = (false, some e) ∧
      e.Unwrap = "token not found" ∧
      e.Error = "failed to validate MFA token: " ++ GoError.Error "token not found" :=
  (verifyMFA_spec MockMFAProvider NewMockMFAProvider "u1" "123456" 0).2.1
    "token not found" rfl

/-- C20: `InitiateMFA(userID)` returns nil if and only if the provider's
`SendToken(userID)` returns nil; when `SendToken` returns an error `err`,
`InitiateMFA` returns an error that unwraps to `err` and has the message
"failed to send MFA token: " followed by the message of `err`. -/
theorem initiateMFA_spec {σ E : Type} [GoError E] (p : MFAProvider σ E) (s : σ)
    (userID : String) :
    ((InitiateMFA (NewMFAService p) s userID).1 = none ↔
      (p.SendToken s userID).1 = none) ∧
    (∀ err : E, (p.SendToken s userID).1 = some err →
      ∃ e : WrapError E,
        (InitiateMFA (NewMFAService p) s userID).1 = some e ∧
        e.Unwrap = err ∧
        e.Error = "failed to send MFA token: " ++ GoError.Error err) ∧
    (InitiateMFA (NewMFAService p) s userID).2 = (p.SendToken s userID).2 := by
  refine ⟨?_, ?_, ?_⟩
  · cases h : (p.SendToken s userID).1 <;> simp [InitiateMFA, NewMFAService, h]
  · intro err h
    exact ⟨Errorf "failed to send MFA token: " err,
      by simp [InitiateMFA, NewMFAService, h], rfl, rfl⟩
  · cases h : (p.SendToken s userID).1 <;> simp [InitiateMFA, NewMFAService, h]

theorem initiateMFA_spec_witness :
    ∃ e : WrapError String,
      (InitiateMFA (NewMFAService
          ({ SendToken := fun s _ => (some "provider down", s)
             ValidateToken := fun s _ _ => ((false, some "provider down"), s) } :
            MFAProvider Unit String)) () "u1").1 = some e ∧
      e.Unwrap = "provider down" ∧
      e.Error = "failed to send MFA token: " ++ GoError.Error "provider down" :=
  (initiateMFA_spec
    ({ SendToken := fun s _ => (some "provider down", s)
       ValidateToken := fun s _ _ => ((false, some "provider down"), s) } :
      MFAProvider Unit String) () "u1").2.1 "provider down" rfl

theorem runMFA_mock_tokens (u : String) (calls : List MFACall) :
    ∀ s : GoMap String,
      (MFACall.initiate u ∈ calls →
        runMFA (NewMFAService MockMFAProvider) s calls u = some "123456") ∧
      (MFACall.initiate u ∉ calls →
        runMFA (NewMFAService MockMFAProvider) s calls u = s u) := by
  induction calls with
  | nil => intro s; simp [runMFA]
  | cons c cs ih =>
    intro s
    have hstep : runMFA (NewMFAService MockMFAProvider) s (c :: cs)
        = runMFA (NewMFAService MockMFAProvider)
            (MFACall.apply (NewMFAService MockMFAProvider) s c) cs := rfl
    rw [hstep]
    obtain ⟨hin, hout⟩ := ih (MFACall.apply (NewMFAService MockMFAProvider) s c)
    constructor
    · intro hmem
      by_cases hcs : MFACall.initiate u ∈ cs
      · exact hin hcs
      · rw [hout hcs]
        have hc : c = MFACall.initiate u := by
          rcases List.mem_cons.mp hmem with h | h
          · exact h.symm
          · exact absurd h hcs
        subst hc
        simp [MFACall.apply, InitiateMFA, NewMFAService, MockMFAProvider, GoMap.set]
    · intro hmem
      have hcs : MFACall.initiate u ∉ cs := fun h => hmem (List.mem_cons_of_mem _ h)
      rw [hout hcs]
      cases c with
      | initiate v =>
        have hv : u ≠ v := by
          intro e; subst e; exact hmem (List.mem_cons_self _ _)
        simp [MFACall.apply, InitiateMFA, NewMFAService, MockMFAProvider, GoMap.set, hv]
      | verify v t =>
        simp only [MFACall.apply, VerifyMFA, NewMFAService, MockMFAProvider]
        cases s v with
        | none => rfl
        | some e => by_cases het : e = t <;> simp [het]

theorem verifyMFA_mock (s : GoMap String) (u t : String) :
    ((VerifyMFA (NewMFAService MockMFAProvider) s u t).1 = (true, none) ↔ s u = some t) ∧
    ((VerifyMFA (NewMFAService MockMFAProvider) s u t).1.1 = true ↔ s u = some t) := by
  simp only [VerifyMFA, NewMFAService, MockMFAProvider]
  cases s u with
  | none => simp
  | some e => by_cases het : e = t <;> simp [het]

theorem verifyMFA_mock_congr (s s2 : GoMap String) (u t : String) (h : s u = s2 u) :
    (VerifyMFA (NewMFAService MockMFAProvider) s u t).1
      = (VerifyMFA (NewMFAService MockMFAProvider) s2 u t).1 := by
  simp only [VerifyMFA, NewMFAService, MockMFAProvider, h]
  cases s2 u with
  | none => rfl
  | some e => by_cases het : e = t <;> simp [het]

/-- C21: over the `MockMFAProvider`, after any sequence of calls on a new mock,
`VerifyMFA(u, t)` returns `(true, nil)` if and only if `InitiateMFA(u)` was
called earlier and `t` is "123456"; in every other case the verdict is false;
and an `InitiateMFA(v)` for another user `v ≠ u` does not change the result of
`VerifyMFA(u, t)`. -/
theorem verifyMFA_mock_spec (calls : List MFACall) (u t : String) :
    ((VerifyMFA (NewMFAService MockMFAProvider)
        (runMFA (NewMFAService MockMFAProvider) NewMockMFAProvider calls) u t).1
        = (true, none) ↔ (MFACall.initiate u ∈ calls ∧ t = "123456")) ∧
    (¬ (MFACall.initiate u ∈ calls ∧ t = "123456") →
      (VerifyMFA (NewMFAService MockMFAProvider)
        (runMFA (NewMFAService MockMFAProvider) NewMockMFAProvider calls) u t).1.1
        = false) ∧
    (∀ v : String, v ≠ u →
      (VerifyMFA (NewMFAService MockMFAProvider)
        (runMFA (NewMFAService MockMFAProvider) NewMockMFAProvider
          (calls ++ [MFACall.initiate v])) u t).1
      = (VerifyMFA (NewMFAService MockMFAProvider)
        (runMFA (NewMFAService MockMFAProvider) NewMockMFAProvider calls) u t).1) := by
  obtain ⟨hin, hout⟩ := runMFA_mock_tokens u calls NewMockMFAProvider
  have hstate : (runMFA (NewMFAService MockMFAProvider) NewMockMFAProvider calls u
      = some t) ↔ (MFACall.initiate u ∈ calls ∧ t = "123456") := by
    by_cases hmem : MFACall.initiate u ∈ calls
    · rw [hin hmem]
      constructor
      · intro h; exact ⟨hmem, (Option.some.inj h).symm⟩
      · intro h; rw [h.2]
    · rw [hout hmem]
      simp [NewMockMFAProvider, GoMap.empty, hmem]
  obtain ⟨h1, h2⟩ := verifyMFA_mock
    (runMFA (NewMFAService MockMFAProvider) NewMockMFAProvider calls) u t
  refine ⟨h1.trans hstate, ?_, ?_⟩
  · intro hn
    have : ¬ ((VerifyMFA (NewMFAService MockMFAProvider)
        (runMFA (NewMFAService MockMFAProvider) NewMockMFAProvider calls) u t).1.1
        = true) := fun h => hn (hstate.mp (h2.mp h))
    simpa using this
  · intro v hv
    have hrun : runMFA (NewMFAService MockMFAProvider) NewMockMFAProvider
        (calls ++ [MFACall.initiate v]) u
        = runMFA (NewMFAService MockMFAProvider) NewMockMFAProvider calls u := by
      simp [runMFA, List.foldl_append, MFACall.apply, InitiateMFA, NewMFAService,
        MockMFAProvider, GoMap.set, Ne.symm hv]
    exact verifyMFA_mock_congr _ _ u t hrun

theorem verifyMFA_mock_spec_witness :
    (VerifyMFA (NewMFAService MockMFAProvider)
        (runMFA (NewMFAService MockMFAProvider) NewMockMFAProvider
          [MFACall.initiate "u1"]) "u1" "000000").1.1 = false ∧
    (VerifyMFA (NewMFAService MockMFAProvider)
        (runMFA (NewMFAService MockMFAProvider) NewMockMFAProvider
          [MFACall.initiate "u1"]) "u1" "123456").1 = (true, none) :=
  ⟨(verifyMFA_mock_spec [MFACall.initiate "u1"] "u1" "000000").2.1
      (fun h => absurd h.2 (by decide)),
   (verifyMFA_mock_spec [MFACall.initiate "u1"] "u1" "123456").1.mpr
      ⟨List.mem_cons_self _ _, rfl⟩⟩

/-! ## Password strength: theorems -/

theorem utf8Size_ascii (c : Char) (h : c.toNat < 128) : c.utf8Size = 1 := by
  unfold Char.utf8Size
  have hv : c.val.toNat = c.toNat := rfl
  have h1 : c.val ≤ 127 := by
    show c.val.toNat ≤ 127
    omega
  exact if_pos h1

theorem utf8ByteSize_go_ascii (l : List Char) (h : ∀ c ∈ l, c.toNat < 128) :
    String.utf8ByteSize.go l = l.length := by
  induction l with
  | nil => rfl
  | cons c cs ih =>
    simp only [String.utf8ByteSize.go, List.length_cons]
    rw [ih (fun x hx => h x (List.mem_cons_of_mem _ hx)),
      utf8Size_ascii c (h c (List.mem_cons_self _ _))]

theorem utf8ByteSize_ascii (s : String) (h : ∀ c ∈ s.toList, c.toNat < 128) :
    s.utf8ByteSize = s.length := by
  cases s with
  | mk l => exact utf8ByteSize_go_ascii l h

theorem foldl_scanChar (tables : Char → RuneClass) (l : List Char) :
    ∀ f : Flags,
      (l.foldl (scanChar tables) f).hasUpper
        = (f.hasUpper || l.any (fun c => IsUpper tables c)) ∧
      (l.foldl (scanChar tables) f).hasLower
        = (f.hasLower || l.any (fun c => IsLower tables c)) ∧
      (l.foldl (scanChar tables) f).hasNumber
        = (f.hasNumber || l.any (fun c => IsDigit tables c)) ∧
      (l.foldl (scanChar tables) f).hasSpecial
        = (f.hasSpecial || l.any (fun c => IsPunct tables c || IsSymbol tables c)) := by
  induction l with
  | nil => intro f; simp
  | cons c cs ih =>
    intro f
    obtain ⟨h1, h2, h3, h4⟩ := ih (scanChar tables f c)
    simp only [List.foldl_cons, List.any_cons, h1, h2, h3, h4]
    unfold scanChar IsUpper IsLower IsDigit IsPunct IsSymbol
    cases runeClass tables c <;> simp

theorem asciiClass_ofNat : ∀ n, n < 128 →
    ((asciiClass (Char.ofNat n) = RuneClass.upper) = ((Char.ofNat n).isUpper = true)) ∧
    ((asciiClass (Char.ofNat n) = RuneClass.lower) = ((Char.ofNat n).isLower = true)) ∧
    ((asciiClass (Char.ofNat n) = RuneClass.digit) = ((Char.ofNat n).isDigit = true)) ∧
    ((asciiClass (Char.ofNat n) = RuneClass.punct ∨ asciiClass (Char.ofNat n) = RuneClass.symbol)
      = (isSpecialASCII (Char.ofNat n) = true)) := by
  decide

theorem runeClass_ascii (tables : Char → RuneClass) (c : Char) (h : c.toNat < 128) :
    (IsUpper tables c = c.isUpper) ∧ (IsLower tables c = c.isLower) ∧
    (IsDigit tables c = c.isDigit) ∧
    ((IsPunct tables c || IsSymbol tables c) = isSpecialASCII c) := by
  have hc : Char.ofNat c.toNat = c := Char.ofNat_toNat c
  obtain ⟨h1, h2, h3, h4⟩ := asciiClass_ofNat c.toNat h
  rw [hc] at h1 h2 h3 h4
  unfold IsUpper IsLower IsDigit IsPunct IsSymbol runeClass
  simp only [h, if_true]
  refine ⟨?_, ?_, ?_, ?_⟩
  · rw [Bool.eq_iff_iff]; simp [h1]
  · rw [Bool.eq_iff_iff]; simp [h2]
  · rw [Bool.eq_iff_iff]; simp [h3]
  · rw [Bool.eq_iff_iff]; simp [h4]

theorem validatePasswordStrength_eq (tables : Char → RuneClass) (password : String) :
    ValidatePasswordStrength tables password =
      if password.utf8ByteSize < 8 then some "password must be at least 8 characters long"
      else if password.toList.any (fun c => IsUpper tables c) = false then
        some "password must contain at least one uppercase letter"
      else if password.toList.any (fun c => IsLower tables c) = false then
        some "password must contain at least one lowercase letter"
      else if password.toList.any (fun c => IsDigit tables c) = false then
        some "password must contain at least one number"
      else if password.toList.any (fun c => IsPunct tables c || IsSymbol tables c) = false then
        some "password must contain at least one special character"
      else none := by
  obtain ⟨h1, h2, h3, h4⟩ := foldl_scanChar tables password.toList
    { hasUpper := false, hasLower := false, hasNumber := false, hasSpecial := false }
  unfold ValidatePasswordStrength
  simp only [h1, h2, h3, h4, Bool.false_or]
  by_cases hl : password.utf8ByteSize < 8
  · simp [hl]
  · have hl2 : password.utf8ByteSize ≥ 8 := Nat.le_of_not_lt hl
    simp only [hl, hl2, if_false, decide_True, Bool.not_true]
    cases password.toList.any (fun c => IsUpper tables c) <;>
    cases password.toList.any (fun c => IsLower tables c) <;>
    cases password.toList.any (fun c => IsDigit tables c) <;>
    cases password.toList.any (fun c => IsPunct tables c || IsSymbol tables c) <;> simp


theorem any_ascii (tables : Char → RuneClass) (l : List Char)
    (h : ∀ c ∈ l, c.toNat < 128) :
    l.any (fun c => IsUpper tables c) = l.any Char.isUpper ∧
    l.any (fun c => IsLower tables c) = l.any Char.isLower ∧
    l.any (fun c => IsDigit tables c) = l.any Char.isDigit ∧
    l.any (fun c => IsPunct tables c || IsSymbol tables c) = l.any isSpecialASCII := by
  induction l with
  | nil => simp
  | cons c cs ih =>
    obtain ⟨a1, a2, a3, a4⟩ := ih (fun x hx => h x (List.mem_cons_of_mem _ hx))
    obtain ⟨c1, c2, c3, c4⟩ := runeClass_ascii tables c (h c (List.mem_cons_self _ _))
    simp only [List.any_cons, a1, a2, a3, a4, c1, c2, c3, c4, and_self]

/-- C22: for a password made only of ASCII characters, `ValidatePasswordStrength`
returns nil if and only if the password has at least 8 characters and contains
an uppercase letter `A-Z`, a lowercase letter `a-z`, a digit `0-9` and a special
character (printable ASCII, not alphanumeric, not the space). The passwords
"StrongP@ss123!", "StrongP@ssw0rd" and "C0mpl3x!P@ssw0rd" are accepted; "Weak1!",
"WeakPass123", "weak" and "12345678" are rejected. -/
theorem validatePasswordStrength_ascii (tables : Char → RuneClass) :
    (∀ password : String, (∀ c ∈ password.toList, c.toNat < 128) →
      (ValidatePasswordStrength tables password = none ↔
        8 ≤ password.length ∧
        (∃ c ∈ password.toList, c.isUpper = true) ∧
        (∃ c ∈ password.toList, c.isLower = true) ∧
        (∃ c ∈ password.toList, c.isDigit = true) ∧
        (∃ c ∈ password.toList, isSpecialASCII c = true))) ∧
    ValidatePasswordStrength tables "StrongP@ss123!" = none ∧
    ValidatePasswordStrength tables "StrongP@ssw0rd" = none ∧
    ValidatePasswordStrength tables "C0mpl3x!P@ssw0rd" = none ∧
    ValidatePasswordStrength tables "Weak1!" ≠ none ∧
    ValidatePasswordStrength tables "WeakPass123" ≠ none ∧
    ValidatePasswordStrength tables "weak" ≠ none ∧
    ValidatePasswordStrength tables "12345678" ≠ none := by
  refine ⟨?_, rfl, rfl, rfl, ?_, ?_, ?_, ?_⟩
  · intro password hascii
    obtain ⟨a1, a2, a3, a4⟩ := any_ascii tables password.toList hascii
    rw [validatePasswordStrength_eq, a1, a2, a3, a4, utf8ByteSize_ascii password hascii]
    simp only [← List.any_eq_true]
    by_cases hl : password.length < 8
    · simp only [hl, if_true]
      constructor
      · intro h; exact absurd h (by simp)
      · intro h; omega
    · have hl2 : 8 ≤ password.length := Nat.le_of_not_lt hl
      simp only [hl, if_false, hl2, true_and]
      cases password.toList.any Char.isUpper <;>
      cases password.toList.any Char.isLower <;>
      cases password.toList.any Char.isDigit <;>
      cases password.toList.any isSpecialASCII <;> simp
  · exact fun h => Option.noConfusion (h.symm.trans
      (rfl : ValidatePasswordStrength tables "Weak1!"
        = some "password must be at least 8 characters long"))
  · exact fun h => Option.noConfusion (h.symm.trans
      (rfl : ValidatePasswordStrength tables "WeakPass123"
        = some "password must contain at least one special character"))
  · exact fun h => Option.noConfusion (h.symm.trans
      (rfl : ValidatePasswordStrength tables "weak"
        = some "password must be at least 8 characters long"))
  · exact fun h => Option.noConfusion (h.symm.trans
      (rfl : ValidatePasswordStrength tables "12345678"
        = some "password must contain at least one uppercase letter"))

/-- C23, on the code: the password "Aa0!€€" has 6 characters (code points) and
10 bytes; `len(password)` counts the bytes, so the length test passes and
`ValidatePasswordStrength` returns nil, whatever the tables of package unicode
say about the euro sign. -/
theorem short_multibyte_password_accepted (tables : Char → RuneClass) :
    "Aa0!€€".length = 6 ∧ "Aa0!€€".utf8ByteSize = 10 ∧
    ValidatePasswordStrength tables "Aa0!€€" = none := by
  refine ⟨by decide, by decide, ?_⟩
  rw [validatePasswordStrength_eq]
  have hsize : ¬ ("Aa0!€€".utf8ByteSize < 8) := by decide
  have hU : "Aa0!€€".toList.any (fun c => IsUpper tables c) = true :=
    List.any_eq_true.mpr ⟨'A', by decide, rfl⟩
  have hL : "Aa0!€€".toList.any (fun c => IsLower tables c) = true :=
    List.any_eq_true.mpr ⟨'a', by decide, rfl⟩
  have hD : "Aa0!€€".toList.any (fun c => IsDigit tables c) = true :=
    List.any_eq_true.mpr ⟨'0', by decide, rfl⟩
  have hS : "Aa0!€€".toList.any (fun c => IsPunct tables c || IsSymbol tables c) = true :=
    List.any_eq_true.mpr ⟨'!', by decide, rfl⟩
  rw [if_neg hsize, hU, hL, hD, hS]
  simp

/-- C24: `ValidatePasswordStrength` returns the error of the first failing
criterion in the order length, uppercase, lowercase, digit, special character:
the length error whenever the length test fails, else the uppercase error when
no uppercase letter is present, and so on, and nil when no criterion fails.
"Weak1!" gives the length error and "WeakPass123" the special-character
error. -/
theorem validatePasswordStrength_first_failure (tables : Char → RuneClass)
    (password : String) :
    (password.utf8ByteSize < 8 →
      ValidatePasswordStrength tables password
        = some "password must be at least 8 characters long") ∧
    (8 ≤ password.utf8ByteSize →
      (∀ c ∈ password.toList, IsUpper tables c = false) →
      ValidatePasswordStrength tables password
        = some "password must contain at least one uppercase letter") ∧
    (8 ≤ password.utf8ByteSize →
      (∃ c ∈ password.toList, IsUpper tables c = true) →
      (∀ c ∈ password.toList, IsLower tables c = false) →
      ValidatePasswordStrength tables password
        = some "password must contain at least one lowercase letter") ∧
    (8 ≤ password.utf8ByteSize →
      (∃ c ∈ password.toList, IsUpper tables c = true) →
      (∃ c ∈ password.toList, IsLower tables c = true) →
      (∀ c ∈ password.toList, IsDigit tables c = false) →
      ValidatePasswordStrength tables password
        = some "password must contain at least one number") ∧
    (8 ≤ password.utf8ByteSize →
      (∃ c ∈ password.toList, IsUpper tables c = true) →
      (∃ c ∈ password.toList, IsLower tables c = true) →
      (∃ c ∈ password.toList, IsDigit tables c = true) →
      (∀ c ∈ password.toList, (IsPunct tables c || IsSymbol tables c) = false) →
      ValidatePasswordStrength tables password
        = some "password must contain at least one special character") ∧
    (8 ≤ password.utf8ByteSize →
      (∃ c ∈ password.toList, IsUpper tables c = true) →
      (∃ c ∈ password.toList, IsLower tables c = true) →
      (∃ c ∈ password.toList, IsDigit tables c = true) →
      (∃ c ∈ password.toList, (IsPunct tables c || IsSymbol tables c) = true) →
      ValidatePasswordStrength tables password = none) ∧
    ValidatePasswordStrength tables "Weak1!"
      = some "password must be at least 8 characters long" ∧
    ValidatePasswordStrength tables "WeakPass123"
      = some "password must contain at least one special character" := by
  have anyT : ∀ p : Char → Bool, (∃ c ∈ password.toList, p c = true) →
      password.toList.any (fun c => p c) = true :=
    fun p h => List.any_eq_true.mpr h
  have anyF : ∀ p : Char → Bool, (∀ c ∈ password.toList, p c = false) →
      password.toList.any (fun c => p c) = false :=
    fun p h => List.any_eq_false.mpr (fun c hc => by simp [h c hc])
  refine ⟨?_, ?_, ?_, ?_, ?_, ?_, rfl, rfl⟩
  · intro h
    rw [validatePasswordStrength_eq, if_pos h]
  · intro h hu
    rw [validatePasswordStrength_eq, if_neg (Nat.not_lt.mpr h), anyF _ hu]
    simp
  · intro h hu hl
    rw [validatePasswordStrength_eq, if_neg (Nat.not_lt.mpr h), anyT _ hu, anyF _ hl]
    simp
  · intro h hu hl hd
    rw [validatePasswordStrength_eq, if_neg (Nat.not_lt.mpr h), anyT _ hu, anyT _ hl,
      anyF _ hd]
    simp
  · intro h hu hl hd hs
    rw [validatePasswordStrength_eq, if_neg (Nat.not_lt.mpr h), anyT _ hu, anyT _ hl,
      anyT _ hd, anyF (fun c => IsPunct tables c || IsSymbol tables c) hs]
    simp
  · intro h hu hl hd hs
    rw [validatePasswordStrength_eq, if_neg (Nat.not_lt.mpr h), anyT _ hu, anyT _ hl,
      anyT _ hd, anyT (fun c => IsPunct tables c || IsSymbol tables c) hs]
    simp

theorem validatePasswordStrength_ascii_witness :
    ValidatePasswordStrength (fun _ => RuneClass.other) "C0mpl3x!P@ssw0rd" = none :=
  ((validatePasswordStrength_ascii (fun _ => RuneClass.other)).1 "C0mpl3x!P@ssw0rd"
    (by decide)).mpr (by decide)

theorem validatePasswordStrength_first_failure_witness :
    ValidatePasswordStrength (fun _ => RuneClass.other) "12345678"
      = some "password must contain at least one uppercase letter" :=
  (validatePasswordStrength_first_failure (fun _ => RuneClass.other) "12345678").2.1
    (by decide) (by decide)

end Auth

/-! ## Encryption: theorems -/

namespace Security

theorem decode_encodeChar : ∀ i, i < 64 → decodeChar (Auth.encodeChar i) = some i := by
  decide

theorem encodeChar_ne_pad : ∀ i, i < 64 →
    Auth.encodeChar i ≠ '=' ∧ Auth.encodeChar i ≠ '\r' ∧ Auth.encodeChar i ≠ '\n' := by
  decide


theorem byteOf_val (a : Auth.Byte) : byteOf a.val = a := by
  apply Fin.ext
  show a.val % 256 = a.val
  exact Nat.mod_eq_of_lt a.isLt

theorem decodeQuanta_encode (l : List Auth.Byte) :
    decodeQuanta (Auth.EncodeToString l) = .ok l := by
  induction l using Auth.EncodeToString.induct with
  | case1 a b c rest ih =>
    have ha := a.isLt; have hb := b.isLt; have hc := c.isLt
    have h0 := decode_encodeChar ((a.val * 65536 + b.val * 256 + c.val) / 262144 % 64)
      (Nat.mod_lt _ (by norm_num))
    have h1 := decode_encodeChar ((a.val * 65536 + b.val * 256 + c.val) / 4096 % 64)
      (Nat.mod_lt _ (by norm_num))
    have h2 := decode_encodeChar ((a.val * 65536 + b.val * 256 + c.val) / 64 % 64)
      (Nat.mod_lt _ (by norm_num))
    have h3 := decode_encodeChar ((a.val * 65536 + b.val * 256 + c.val) % 64)
      (Nat.mod_lt _ (by norm_num))
    have n2 := (encodeChar_ne_pad ((a.val * 65536 + b.val * 256 + c.val) / 64 % 64)
      (Nat.mod_lt _ (by norm_num))).1
    have n3 := (encodeChar_ne_pad ((a.val * 65536 + b.val * 256 + c.val) % 64)
      (Nat.mod_lt _ (by norm_num))).1
    simp only [Auth.EncodeToString, decodeQuanta, h0, h1, h2, h3, n2, n3, if_false, ih]
    have e1 : byteOf (((a.val * 65536 + b.val * 256 + c.val) / 262144 % 64 * 262144 +
        (a.val * 65536 + b.val * 256 + c.val) / 4096 % 64 * 4096 +
        (a.val * 65536 + b.val * 256 + c.val) / 64 % 64 * 64 +
        (a.val * 65536 + b.val * 256 + c.val) % 64) / 65536) = a := by
      apply Fin.ext; show _ % 256 = a.val; omega
    have e2 : byteOf (((a.val * 65536 + b.val * 256 + c.val) / 262144 % 64 * 262144 +
        (a.val * 65536 + b.val * 256 + c.val) / 4096 % 64 * 4096 +
        (a.val * 65536 + b.val * 256 + c.val) / 64 % 64 * 64 +
        (a.val * 65536 + b.val * 256 + c.val) % 64) / 256) = b := by
      apply Fin.ext; show _ % 256 = b.val; omega
    have e3 : byteOf ((a.val * 65536 + b.val * 256 + c.val) / 262144 % 64 * 262144 +
        (a.val * 65536 + b.val * 256 + c.val) / 4096 % 64 * 4096 +
        (a.val * 65536 + b.val * 256 + c.val) / 64 % 64 * 64 +
        (a.val * 65536 + b.val * 256 + c.val) % 64) = c := by
      apply Fin.ext; show _ % 256 = c.val; omega
    rw [e1, e2, e3]
  | case2 a b =>
    have ha := a.isLt; have hb := b.isLt
    have h0 := decode_encodeChar ((a.val * 65536 + b.val * 256) / 262144 % 64)
      (Nat.mod_lt _ (by norm_num))
    have h1 := decode_encodeChar ((a.val * 65536 + b.val * 256) / 4096 % 64)
      (Nat.mod_lt _ (by norm_num))
    have h2 := decode_encodeChar ((a.val * 65536 + b.val * 256) / 64 % 64)
      (Nat.mod_lt _ (by norm_num))
    have n2 := (encodeChar_ne_pad ((a.val * 65536 + b.val * 256) / 64 % 64)
      (Nat.mod_lt _ (by norm_num))).1
    simp only [Auth.EncodeToString, decodeQuanta, h0, h1, h2, n2, if_false, if_true]
    have e1 : byteOf (((a.val * 65536 + b.val * 256) / 262144 % 64 * 262144 +
        (a.val * 65536 + b.val * 256) / 4096 % 64 * 4096 +
        (a.val * 65536 + b.val * 256) / 64 % 64 * 64) / 65536) = a := by
      apply Fin.ext; show _ % 256 = a.val; omega
    have e2 : byteOf (((a.val * 65536 + b.val * 256) / 262144 % 64 * 262144 +
        (a.val * 65536 + b.val * 256) / 4096 % 64 * 4096 +
        (a.val * 65536 + b.val * 256) / 64 % 64 * 64) / 256) = b := by
      apply Fin.ext; show _ % 256 = b.val; omega
    rw [e1, e2]
  | case3 a =>
    have ha := a.isLt
    have h0 := decode_encodeChar ((a.val * 65536) / 262144 % 64)
      (Nat.mod_lt _ (by norm_num))
    have h1 := decode_encodeChar ((a.val * 65536) / 4096 % 64)
      (Nat.mod_lt _ (by norm_num))
    simp only [Auth.EncodeToString, decodeQuanta, h0, h1, if_true, and_self]
    have e1 : byteOf (((a.val * 65536) / 262144 % 64 * 262144 +
        (a.val * 65536) / 4096 % 64 * 4096) / 65536) = a := by
      apply Fin.ext; show _ % 256 = a.val; omega
    rw [e1]
  | case4 => rfl


theorem encodeToString_no_newline (l : List Auth.Byte) :
    ∀ c ∈ Auth.EncodeToString l, (c != '\r' && c != '\n') = true := by
  have hch : ∀ i, i < 64 → (Auth.encodeChar i != '\r' && Auth.encodeChar i != '\n') = true := by
    decide
  induction l using Auth.EncodeToString.induct with
  | case1 a b c rest ih =>
    intro x hx
    simp only [Auth.EncodeToString, List.mem_cons] at hx
    rcases hx with h | h | h | h | h
    · rw [h]; exact hch _ (Nat.mod_lt _ (by norm_num))
    · rw [h]; exact hch _ (Nat.mod_lt _ (by norm_num))
    · rw [h]; exact hch _ (Nat.mod_lt _ (by norm_num))
    · rw [h]; exact hch _ (Nat.mod_lt _ (by norm_num))
    · exact ih x h
  | case2 a b =>
    intro x hx
    simp only [Auth.EncodeToString, List.mem_cons, List.mem_singleton, List.not_mem_nil,
      or_false] at hx
    rcases hx with h | h | h | h
    · rw [h]; exact hch _ (Nat.mod_lt _ (by norm_num))
    · rw [h]; exact hch _ (Nat.mod_lt _ (by norm_num))
    · rw [h]; exact hch _ (Nat.mod_lt _ (by norm_num))
    · rw [h]; decide
  | case3 a =>
    intro x hx
    simp only [Auth.EncodeToString, List.mem_cons, List.mem_singleton, List.not_mem_nil,
      or_false] at hx
    rcases hx with h | h | h | h
    · rw [h]; exact hch _ (Nat.mod_lt _ (by norm_num))
    · rw [h]; exact hch _ (Nat.mod_lt _ (by norm_num))
    · rw [h]; decide
    · rw [h]; decide
  | case4 => intro x hx; simp [Auth.EncodeToString] at hx

theorem decodeString_encodeToString (l : List Auth.Byte) :
    DecodeString (String.mk (Auth.EncodeToString l)) = .ok l := by
  unfold DecodeString
  rw [List.filter_eq_self.mpr (encodeToString_no_newline l)]
  exact decodeQuanta_encode l

theorem xor_cancel (a b : Auth.Byte) : (a ^^^ b) ^^^ b = a := by
  have ha := a.isLt; have hb := b.isLt
  have hlt : a.val ^^^ b.val < 256 := Nat.xor_lt_two_pow (n := 8) ha hb
  apply Fin.ext
  show ((a.val ^^^ b.val) % 256 ^^^ b.val) % 256 = a.val
  rw [Nat.mod_eq_of_lt hlt, Nat.xor_assoc, Nat.xor_self, Nat.xor_zero,
    Nat.mod_eq_of_lt ha]

theorem cfb_roundtrip (block : List Auth.Byte → List Auth.Byte) (src : List Auth.Byte) :
    ∀ (next out : List Auth.Byte) (used : Nat),
      (cfb.XORKeyStream block
        { next := next, out := out, outUsed := used, decrypt := true }
        (cfb.XORKeyStream block
          { next := next, out := out, outUsed := used, decrypt := false } src).1).1
      = src := by
  induction src with
  | nil => intro next out used; rfl
  | cons s src ih =>
    intro next out used
    by_cases h : used = 16
    · simp only [cfb.XORKeyStream, h, if_true, xor_cancel, Bool.false_eq_true, if_false]
      rw [ih]
    · simp only [cfb.XORKeyStream, h, if_false, if_true, xor_cancel, Bool.false_eq_true]
      rw [ih]


/-- C25: for every key of 16, 24 or 32 bytes, every plaintext (the empty one
included) and every 16-byte IV read from the random source, `Encrypt` succeeds
with a ciphertext `c` and `Decrypt(c, key)` returns the plaintext without
error, whatever the block function of the cipher is. -/
theorem decrypt_encrypt (aes : List Auth.Byte → List Auth.Byte → List Auth.Byte)
    (key plaintext iv : List Auth.Byte)
    (hkey : key.length = 16 ∨ key.length = 24 ∨ key.length = 32)
    (hiv : iv.length = 16) :
    ∃ c : String, Encrypt aes (.ok iv) plaintext key = (c, none) ∧
      Decrypt aes c key = (plaintext, none) := by
  refine ⟨String.mk (Auth.EncodeToString
    (iv ++ ((newCFB iv false).XORKeyStream (aes key) plaintext).1)), ?_, ?_⟩
  · simp [Encrypt, NewCipher, hkey]
  · have hlen : ¬ ((iv ++ ((newCFB iv false).XORKeyStream (aes key) plaintext).1).length
        < 16) := by
      rw [List.length_append, hiv]; omega
    have htake : (iv ++ ((newCFB iv false).XORKeyStream (aes key) plaintext).1).take 16
        = iv := by
      rw [← hiv, List.take_left]
    have hdrop : (iv ++ ((newCFB iv false).XORKeyStream (aes key) plaintext).1).drop 16
        = ((newCFB iv false).XORKeyStream (aes key) plaintext).1 := by
      rw [← hiv, List.drop_left]
    simp only [Decrypt, decodeString_encodeToString, NewCipher, hkey, if_true, hlen,
      if_false, htake, hdrop]
    simp only [newCFB]
    rw [cfb_roundtrip]

theorem decrypt_encrypt_witness :
    ∃ c : String,
      Encrypt (fun _ b => b) (.ok (List.replicate 16 7)) [104, 105]
          (List.replicate 16 1) = (c, none) ∧
      Decrypt (fun _ b => b) c (List.replicate 16 1) = ([104, 105], none) :=
  decrypt_encrypt (fun _ b => b) (List.replicate 16 1) [104, 105]
    (List.replicate 16 7) (Or.inl (by decide)) (by decide)

end Security

end MobileApi
